import Mathlib

/-!
# Verification of the podnex-proto job lifecycle manager

A shallow embedding of the in-memory job queue (`src/services/jobQueue.ts`),
the single-worker scheduler (`src/services/jobProcessor.ts`) and the webhook
notifier (`src/services/webhook.ts`), together with proofs of the spec's
claims about them.

JavaScript `Map` objects preserve insertion order; the store is therefore a
list of records whose `jobId` fields act as the map keys.  Timestamps
(`Date.now()`, `new Date()`) are modelled as natural-number milliseconds
supplied by the environment, and `Math.random().toString(36).substr(2, 9)`
as an environment-supplied string.
-/

namespace Podnex

/-- The four job states of `JobStatus` in `src/types/jobs.ts`. -/
inductive JobStatus
  | queued
  | processing
  | completed
  | failed
deriving DecidableEq, Repr

/-- `'short' | 'long'` duration selector. -/
inductive PodcastDuration
  | short
  | long
deriving DecidableEq, Repr

/-- `'host' | 'guest'` speaker tag. -/
inductive Speaker
  | host
  | guest
deriving DecidableEq, Repr

/-- One transcript entry as built in `processJob`. -/
structure TranscriptSegment where
  speaker : Speaker
  text : String
  startTime : Nat
  endTime : Nat
deriving DecidableEq, Repr

/-- The `PodcastJob` record of `src/types/jobs.ts`.  Optional TS fields are
`Option`s; `error` is the failure reason. -/
structure PodcastJob where
  jobId : String
  status : JobStatus
  progress : Nat
  currentStep : Option String
  noteId : String
  noteContent : String
  userId : String
  duration : PodcastDuration
  podcastId : Option String
  audioUrl : Option String
  audioDuration : Option Nat
  transcript : Option (List TranscriptSegment)
  error : Option String
  createdAt : Nat
  startedAt : Option Nat
  completedAt : Option Nat
deriving DecidableEq, Repr

section KeyedList

/-! ## Keyed lists

JavaScript `Map`s keyed by strings, as insertion-ordered lists.  `setByKey`
is `Map.set`: it overwrites the entry holding the key in place, or appends a
new entry. -/

variable {α : Type} (key : α → String)

/-- `Map.get`: the first (under no-duplicate-keys, the only) entry with the key. -/
def findByKey (l : List α) (k : String) : Option α :=
  l.find? (fun x => decide (key x = k))

/-- `Map.set`: replace the entry with key `k` in place, else append. -/
def setByKey : List α → String → α → List α
  | [], _, v => [v]
  | x :: rest, k, v => if key x = k then v :: rest else x :: setByKey rest k v

theorem findByKey_nil (k : String) : findByKey key ([] : List α) k = none := rfl

theorem findByKey_eq_none {l : List α} {k : String} :
    findByKey key l k = none ↔ ∀ x ∈ l, key x ≠ k := by
  simp [findByKey, List.find?_eq_none]

theorem findByKey_some {l : List α} {k : String} {x : α}
    (h : findByKey key l k = some x) : x ∈ l ∧ key x = k := by
  refine ⟨List.mem_of_find?_eq_some h, ?_⟩
  have := List.find?_some h
  simpa using this

theorem findByKey_mem {l : List α} {x : α} (hnd : (l.map key).Nodup) (hx : x ∈ l) :
    findByKey key l (key x) = some x := by
  induction l with
  | nil => cases hx
  | cons a t ih =>
    rcases List.mem_cons.mp hx with rfl | hxt
    · simp [findByKey]
    · by_cases hax : key a = key x
      · exfalso
        have : key x ∈ t.map key := List.mem_map_of_mem key hxt
        rw [List.map_cons] at hnd
        exact (List.nodup_cons.mp hnd).1 (hax ▸ this)
      · have := ih (List.nodup_cons.mp (by rw [List.map_cons] at hnd; exact hnd)).2 hxt
        simpa [findByKey, List.find?_cons, hax] using this

theorem setByKey_of_none {l : List α} {k : String} {v : α}
    (h : findByKey key l k = none) : setByKey key l k v = l ++ [v] := by
  induction l with
  | nil => rfl
  | cons a t ih =>
    have h' := (findByKey_eq_none key).mp h
    have ha : key a ≠ k := h' a (List.mem_cons_self a t)
    have ht : findByKey key t k = none :=
      (findByKey_eq_none key).mpr fun x hx => h' x (List.mem_cons_of_mem a hx)
    simp [setByKey, ha, ih ht]

theorem setByKey_of_some {l : List α} {k : String} {v c : α}
    (hnd : (l.map key).Nodup) (h : findByKey key l k = some c) :
    setByKey key l k v = l.map (fun x => if key x = k then v else x) := by
  induction l with
  | nil => simp [findByKey] at h
  | cons a t ih =>
    rw [List.map_cons] at hnd
    by_cases hak : key a = k
    · have hnone : ∀ x ∈ t, key x ≠ k := by
        intro x hx hxk
        exact (List.nodup_cons.mp hnd).1 (hak ▸ hxk ▸ List.mem_map_of_mem key hx)
      have hmap : t.map (fun x => if key x = k then v else x) = t := by
        have : t.map (fun x => if key x = k then v else x) = t.map id :=
          List.map_congr_left fun x hx => by simp [hnone x hx]
        simpa using this
      simp [setByKey, hak, List.map_cons, hmap]
    · have h' : findByKey key t k = some c := by
        simpa [findByKey, List.find?_cons, hak] using h
      simp [setByKey, hak, ih (List.nodup_cons.mp hnd).2 h']

theorem findByKey_map_self {l : List α} {k : String} {v c : α}
    (hv : key v = k) (h : findByKey key l k = some c) :
    findByKey key (l.map (fun x => if key x = k then v else x)) k = some v := by
  unfold findByKey
  rw [List.find?_map]
  have hpred : ((fun x => decide (key x = k)) ∘ fun x => if key x = k then v else x)
      = fun x => decide (key x = k) := by
    funext x
    by_cases hx : key x = k <;> simp [hx, hv]
  rw [hpred]
  have hc := findByKey_some key h
  unfold findByKey at h
  rw [h]
  simp [hc.2]

theorem findByKey_map_other {l : List α} {k k' : String} {v : α}
    (hne : k' ≠ k) (hv : key v = k) :
    findByKey key (l.map (fun x => if key x = k then v else x)) k'
      = findByKey key l k' := by
  unfold findByKey
  rw [List.find?_map]
  have hpred : ((fun x => decide (key x = k')) ∘ fun x => if key x = k then v else x)
      = fun x => decide (key x = k') := by
    funext x
    by_cases hx : key x = k
    · simp [hx, hv, hne, Ne.symm hne]
    · simp [hx]
  rw [hpred]
  cases hfind : l.find? (fun x => decide (key x = k')) with
  | none => simp
  | some c =>
    have hc : key c = k' := by simpa using List.find?_some hfind
    have : key c ≠ k := hc ▸ hne
    simp [this]

theorem mapkey_map_update {l : List α} {k : String} {v : α} (hv : key v = k) :
    (l.map (fun x => if key x = k then v else x)).map key = l.map key := by
  rw [List.map_map]
  exact List.map_congr_left fun x _ => by by_cases hx : key x = k <;> simp [hx, hv]

theorem findByKey_filter {l : List α} {p : α → Bool} {k : String}
    (hnd : (l.map key).Nodup) :
    findByKey key (l.filter p) k
      = match findByKey key l k with
        | some x => if p x then some x else none
        | none => none := by
  induction l with
  | nil => simp [findByKey]
  | cons a t ih =>
    rw [List.map_cons, List.nodup_cons] at hnd
    by_cases hak : key a = k
    · have hnone : findByKey key t k = none := by
        rw [findByKey_eq_none]
        intro x hx hxk
        exact hnd.1 (hak ▸ hxk ▸ List.mem_map_of_mem key hx)
      have hfind : findByKey key (a :: t) k = some a := by
        simp [findByKey, List.find?_cons, hak]
      rw [hfind]
      by_cases hpa : p a
      · simp [findByKey, List.filter_cons, hpa, hak]
      · have hft : findByKey key (t.filter p) k = none := by
          rw [ih hnd.2, hnone]
        simp [List.filter_cons, hpa, hft]
    · have := ih hnd.2
      by_cases hpa : p a
      · simpa [findByKey, List.filter_cons, hpa, List.find?_cons, hak] using this
      · simpa [findByKey, List.filter_cons, hpa, List.find?_cons, hak] using this

end KeyedList

/-! ## The JobQueue store (`src/services/jobQueue.ts`) -/

/-- `` `job_${Date.now()}_${Math.random().toString(36).substr(2, 9)}` ``
with the timer value and the random suffix supplied by the environment. -/
def mkJobId (now : Nat) (rand : String) : String :=
  "job_" ++ toString now ++ "_" ++ rand

/-- The `JobQueue` class state: the insertion-ordered `jobs` map and the
(write-only) `processingQueue` array. -/
structure JobQueueState where
  jobs : List PodcastJob
  processingQueue : List String
deriving DecidableEq, Repr

/-- `this.jobs.get(jobId)`. -/
def findJob (jobs : List PodcastJob) (id : String) : Option PodcastJob :=
  findByKey PodcastJob.jobId jobs id

/-- `createJob`: build the fresh record, `jobs.set(jobId, job)`,
`processingQueue.push(jobId)`, return the record. -/
def JobQueueState.createJob (q : JobQueueState) (noteId noteContent userId : String)
    (duration : PodcastDuration) (now : Nat) (rand : String) :
    JobQueueState × PodcastJob :=
  let jobId := mkJobId now rand
  let job : PodcastJob :=
    { jobId := jobId
      status := .queued
      progress := 0
      currentStep := none
      noteId := noteId
      noteContent := noteContent
      userId := userId
      duration := duration
      podcastId := none
      audioUrl := none
      audioDuration := none
      transcript := none
      error := none
      createdAt := now
      startedAt := none
      completedAt := none }
  ({ jobs := setByKey PodcastJob.jobId q.jobs jobId job
     processingQueue := q.processingQueue ++ [jobId] }, job)

/-- `updateJob(jobId, updates)`: look the record up; when present,
`Object.assign` the updates (here `f`) and store it back at its key. -/
def JobQueueState.updateJob (q : JobQueueState) (jobId : String)
    (f : PodcastJob → PodcastJob) : JobQueueState :=
  match findJob q.jobs jobId with
  | none => q
  | some job => { q with jobs := setByKey PodcastJob.jobId q.jobs jobId (f job) }

/-- `updateProgress(jobId, progress, currentStep?)`. -/
def JobQueueState.updateProgress (q : JobQueueState) (jobId : String)
    (progress : Nat) (currentStep : Option String) : JobQueueState :=
  q.updateJob jobId
    (fun j => { j with progress := progress, currentStep := currentStep })

/-- `startJob(jobId)`: status `processing`, `startedAt`, progress reset to 0. -/
def JobQueueState.startJob (q : JobQueueState) (jobId : String) (now : Nat) :
    JobQueueState :=
  q.updateJob jobId
    (fun j => { j with status := .processing, startedAt := some now, progress := 0 })

/-- `completeJob(jobId, podcastId, audioUrl, audioDuration, transcript)`. -/
def JobQueueState.completeJob (q : JobQueueState) (jobId podcastId audioUrl : String)
    (audioDuration : Nat) (transcript : List TranscriptSegment) (now : Nat) :
    JobQueueState :=
  q.updateJob jobId
    (fun j => { j with
      status := .completed
      progress := 100
      podcastId := some podcastId
      audioUrl := some audioUrl
      audioDuration := some audioDuration
      transcript := some transcript
      completedAt := some now })

/-- `failJob(jobId, error)`. -/
def JobQueueState.failJob (q : JobQueueState) (jobId errorMessage : String)
    (now : Nat) : JobQueueState :=
  q.updateJob jobId
    (fun j => { j with status := .failed, error := some errorMessage,
                       completedAt := some now })

/-- The relation "a was created no earlier than b" used as the sort order of
`getUserJobs` (`(a, b) => b.createdAt.getTime() - a.createdAt.getTime()`). -/
def newestFirst (a b : PodcastJob) : Prop :=
  b.createdAt ≤ a.createdAt

instance : DecidableRel newestFirst := fun a b => Nat.decLe b.createdAt a.createdAt

instance : IsTotal PodcastJob newestFirst :=
  ⟨fun a b => Nat.le_total b.createdAt a.createdAt⟩

instance : IsTrans PodcastJob newestFirst :=
  ⟨fun _ _ _ hab hbc => Nat.le_trans hbc hab⟩

/-- `getUserJobs(userId)`: filter the records by `userId`, sorted newest
first.  `Array.prototype.sort` is modelled by insertion sort (any sorting
algorithm realises the same contract up to the order of ties). -/
def JobQueueState.getUserJobs (q : JobQueueState) (userId : String) :
    List PodcastJob :=
  (q.jobs.filter (fun j => decide (j.userId = userId))).insertionSort newestFirst

/-- The hardcoded retention window: `24 * 60 * 60 * 1000` ms. -/
def maxJobAgeMs : Nat := 24 * 60 * 60 * 1000

/-- `cleanup()`: delete every record with `createdAt.getTime() < oneDayAgo`
where `oneDayAgo = Date.now() - 24*60*60*1000` (JS number arithmetic, hence
the `Int` comparison). -/
def JobQueueState.cleanup (q : JobQueueState) (now : Nat) : JobQueueState :=
  { q with jobs :=
      q.jobs.filter (fun j =>
        !decide ((j.createdAt : Int) < (now : Int) - (maxJobAgeMs : Int))) }

/-- `getStats().queued`. -/
def JobQueueState.queuedCount (q : JobQueueState) : Nat :=
  q.jobs.countP (fun j => decide (j.status = JobStatus.queued))

/-- `getStats().processing`. -/
def JobQueueState.processingCount (q : JobQueueState) : Nat :=
  q.jobs.countP (fun j => decide (j.status = JobStatus.processing))

/-- `jobs.find(j => j.status === 'queued')` over `getAllJobs()`
(insertion order). -/
def findQueued (jobs : List PodcastJob) : Option PodcastJob :=
  jobs.find? (fun j => decide (j.status = JobStatus.queued))

/-! ## The webhook notifier (`src/services/webhook.ts`) -/

/-- `'podcast.completed' | 'podcast.failed'`. -/
inductive WebhookEvent
  | completedEvent
  | failedEvent
deriving DecidableEq, Repr

/-- The `WebhookPayload` interface. -/
structure WebhookPayload where
  event : WebhookEvent
  jobId : String
  noteId : String
  userId : String
  duration : PodcastDuration
  podcastId : Option String := none
  audioUrl : Option String := none
  audioDuration : Option Nat := none
  transcript : Option (List TranscriptSegment) := none
  error : Option String := none
  timestamp : Nat := 0
deriving DecidableEq, Repr

/-- The outcome of the single `axios.post`: an HTTP response with some
status code, or a thrown transport error. -/
inductive HttpOutcome
  | httpResponse (status : Nat)
  | transportError (message : String)
deriving DecidableEq, Repr

/-- What one `sendWebhook` call did: how many deliveries it attempted and
whether it observed a 2xx response. -/
structure WebhookResult where
  attempts : Nat
  delivered : Bool
deriving DecidableEq, Repr

/-- The body of the `try` block: `await axios.post(...)` either yields a
response or throws. -/
def attemptPost (outcome : HttpOutcome) : Except String Nat :=
  match outcome with
  | .httpResponse s => .ok s
  | .transportError m => .error m

/-- `sendWebhook(payload)`.  With no `WEBHOOK_URL` it logs and returns
without posting; otherwise the single post is wrapped in `try`/`catch`, any
thrown error is swallowed, and nothing is retried.  An `Except.error` result
would model an exception escaping to the caller; the catch ensures it never
occurs. -/
def sendWebhook (webhookUrl : Option String) (_payload : WebhookPayload)
    (outcome : HttpOutcome) : Except String WebhookResult :=
  match webhookUrl with
  | none => .ok { attempts := 0, delivered := false }
  | some _ =>
    match attemptPost outcome with
    | .ok s => .ok { attempts := 1, delivered := decide (200 ≤ s ∧ s < 300) }
    | .error _ => .ok { attempts := 1, delivered := false }

/-! ## The scheduler (`src/services/jobProcessor.ts`) as a transition system

`startJobProcessor` runs a `setInterval` loop; each tick synchronously reads
`getStats`, picks the first queued job and calls `processJob` on it, which
runs synchronously up to its first `await` (`startJob` +
`updateProgress(5)`).  The remainder of `processJob` is a chain of `await`s;
between two of them the store writes happen atomically on the JS event loop.
A `Continuation` records a pending `processJob` at the await numbered `pc`:

  0 `createPodcast` / 1 `generateScript` / 2 `generateAudio` /
  3 `combineAudio` / 4 `uploadToS3` / 5 `updatePodcast` / 6 `sendWebhook`.

The environment chooses which pending await settles next and with what
value (`advanceOk`) or error (`advanceFail`); awaits 0-5 may reject, the
`sendWebhook` promise (6) never rejects because `sendWebhook` catches
everything.  The `catch` block of `processJob` calls `failJob` and touches
only the external database afterwards — in particular it builds no webhook
payload. -/

/-- A pending `processJob`, identified by its job id, at await number `pc`. -/
structure Continuation where
  jobId : String
  pc : Nat
deriving DecidableEq, Repr

/-- A thrown JS value: an `Error` with a message, or anything else
(`error instanceof Error ? error.message : 'Unknown error'`). -/
inductive JsError
  | thrown (message : String)
  | nonError
deriving DecidableEq, Repr

def jsErrorMessage : JsError → String
  | .thrown m => m
  | .nonError => "Unknown error"

/-- Environment-supplied results of the pipeline stage collaborators used in
the store writes of one `advanceOk` step. -/
structure StageData where
  segCount : Nat := 0
  podcastId : String := ""
  audioUrl : String := ""
  audioDuration : Nat := 0
  transcript : List TranscriptSegment := []
deriving Repr

/-- The whole core: the store, the pending `processJob` continuations, the
payload events handed to `sendWebhook` (observables for the notification
claims), and the ghost list of every id `createJob` has issued. -/
structure SysState where
  store : JobQueueState
  conts : List Continuation
  notifications : List (WebhookEvent × String)
  used : List String
deriving Repr

/-- The environment's possible moves: an HTTP submission creating a job, a
scheduler tick, one pending await settling (with a result or an error), and
the hourly cleanup timer. -/
inductive SysAction
  | create (noteId noteContent userId : String) (d : PodcastDuration)
      (now : Nat) (rand : String)
  | tick (now : Nat)
  | advanceOk (id : String) (d : StageData) (now : Nat)
  | advanceFail (id : String) (e : JsError) (now : Nat)
  | sweep (now : Nat)

/-- The store writes `processJob` performs when the await numbered `pc`
resolves, up to (and including) the write preceding the next `await`. -/
def advanceOkStore (st : JobQueueState) (id : String) (pc : Nat) (d : StageData)
    (now : Nat) : JobQueueState :=
  match pc with
  | 0 => st.updateProgress id 10 (some "Generating podcast script...")
  | 1 => (st.updateProgress id 25
            (some ("Generated " ++ toString d.segCount ++ " dialogue segments"))).updateProgress
          id 30 (some "Generating audio for each segment...")
  | 2 => (st.updateProgress id 60
            (some ("Generated " ++ toString d.segCount ++ " audio segments"))).updateProgress
          id 65 (some "Combining audio segments...")
  | 3 => (st.updateProgress id 75 (some "Audio combined successfully")).updateProgress
          id 80 (some "Uploading to S3...")
  | 4 => (st.updateProgress id 90 (some "Upload complete")).updateProgress
          id 92 (some "Updating database...")
  | 5 => (st.updateProgress id 95 (some "Database updated")).completeJob
          id d.podcastId d.audioUrl d.audioDuration d.transcript now
  | _ => st

/-- One scheduler tick: the `setInterval` callback's synchronous prefix.
If `stats.queued > 0 && stats.processing === 0`, pick the first queued job
and run `processJob` up to its first await: `startJob` then
`updateProgress(5, 'Creating database record...')`. -/
def sysTick (s : SysState) (now : Nat) : SysState :=
  if s.store.queuedCount > 0 ∧ s.store.processingCount = 0 then
    match findQueued s.store.jobs with
    | some qj =>
        { s with
          store := (s.store.startJob qj.jobId now).updateProgress qj.jobId 5
                     (some "Creating database record...")
          conts := s.conts ++ [⟨qj.jobId, 0⟩] }
    | none => s
  else s

/-- The system step function.  `create` is guarded by id freshness: the
model takes the `Date.now()`/`Math.random()` pair as an oracle and considers
the executions in which the generated id is new (the intended behaviour of
the id generator; `JobQueueState.createJob` itself performs no such check,
see the claim about id uniqueness). -/
def sysStep (s : SysState) : SysAction → SysState
  | .create noteId noteContent userId d now rand =>
      let id := mkJobId now rand
      if id ∈ s.used then s
      else
        { s with
          store := (s.store.createJob noteId noteContent userId d now rand).1
          used := s.used ++ [id] }
  | .tick now => sysTick s now
  | .advanceOk id d now =>
      match findByKey Continuation.jobId s.conts id with
      | none => s
      | some c =>
        if c.pc = 6 then
          { s with conts := s.conts.eraseP (fun x => decide (x.jobId = id)) }
        else if c.pc ≤ 5 then
          { s with
            store := advanceOkStore s.store id c.pc d now
            conts := setByKey Continuation.jobId s.conts id ⟨id, c.pc + 1⟩
            notifications :=
              if c.pc = 5 then s.notifications ++ [(.completedEvent, id)]
              else s.notifications }
        else s
  | .advanceFail id e now =>
      match findByKey Continuation.jobId s.conts id with
      | none => s
      | some c =>
        if c.pc ≤ 5 then
          { s with
            store := s.store.failJob id (jsErrorMessage e) now
            conts := s.conts.eraseP (fun x => decide (x.jobId = id)) }
        else s
  | .sweep now => { s with store := s.store.cleanup now }

/-- The empty process-start state. -/
def initState : SysState :=
  { store := { jobs := [], processingQueue := [] }
    conts := []
    notifications := []
    used := [] }

/-- Run a finite interleaving of environment moves from process start. -/
def run (acts : List SysAction) : SysState :=
  acts.foldl sysStep initState

/-! ## Characterization of the store mutations -/

theorem updateJob_of_none {q : JobQueueState} {id : String}
    {f : PodcastJob → PodcastJob} (h : findJob q.jobs id = none) :
    q.updateJob id f = q := by
  unfold JobQueueState.updateJob
  rw [h]

theorem updateJob_jobs_of_some {q : JobQueueState} {id : String} {job : PodcastJob}
    {f : PodcastJob → PodcastJob}
    (hnd : (q.jobs.map PodcastJob.jobId).Nodup) (h : findJob q.jobs id = some job) :
    (q.updateJob id f).jobs
      = q.jobs.map (fun x => if x.jobId = id then f job else x) := by
  unfold JobQueueState.updateJob
  rw [h]
  exact setByKey_of_some PodcastJob.jobId hnd h

theorem updateJob_pq {q : JobQueueState} {id : String} {f : PodcastJob → PodcastJob} :
    (q.updateJob id f).processingQueue = q.processingQueue := by
  unfold JobQueueState.updateJob
  cases findJob q.jobs id <;> rfl

/-- Two successive updates on the same key collapse to one map. -/
theorem updateJob_updateJob {q : JobQueueState} {k : String} {w : PodcastJob}
    {f g : PodcastJob → PodcastJob}
    (hnd : (q.jobs.map PodcastJob.jobId).Nodup) (h : findJob q.jobs k = some w)
    (hf : (f w).jobId = w.jobId) :
    ((q.updateJob k f).updateJob k g).jobs
      = q.jobs.map (fun x => if x.jobId = k then g (f w) else x) := by
  have hid : w.jobId = k := (findByKey_some PodcastJob.jobId h).2
  have hfid : (f w).jobId = k := hf.trans hid
  have h1 : (q.updateJob k f).jobs
      = q.jobs.map (fun x => if x.jobId = k then f w else x) :=
    updateJob_jobs_of_some hnd h
  have hnd1 : ((q.updateJob k f).jobs.map PodcastJob.jobId)
      = q.jobs.map PodcastJob.jobId := by
    rw [h1]; exact mapkey_map_update PodcastJob.jobId hfid
  have hfind1 : findJob (q.updateJob k f).jobs k = some (f w) := by
    unfold findJob
    rw [h1]
    exact findByKey_map_self PodcastJob.jobId hfid h
  have h2 : ((q.updateJob k f).updateJob k g).jobs
      = (q.updateJob k f).jobs.map
          (fun x => if x.jobId = k then g (f w) else x) :=
    updateJob_jobs_of_some (by rw [hnd1]; exact hnd) hfind1
  rw [h2, h1, List.map_map]
  refine List.map_congr_left fun x _ => ?_
  by_cases hx : x.jobId = k
  · simp [Function.comp, hx, hfid]
  · simp [Function.comp, hx]

theorem findJob_map_self {jobs : List PodcastJob} {id : String} {v job : PodcastJob}
    (hv : v.jobId = id) (h : findJob jobs id = some job) :
    findJob (jobs.map (fun x => if x.jobId = id then v else x)) id = some v :=
  findByKey_map_self PodcastJob.jobId hv h

theorem findJob_map_other {jobs : List PodcastJob} {id id' : String} {v : PodcastJob}
    (hne : id' ≠ id) (hv : v.jobId = id) :
    findJob (jobs.map (fun x => if x.jobId = id then v else x)) id'
      = findJob jobs id' :=
  findByKey_map_other PodcastJob.jobId hne hv

theorem jobIds_map_update {jobs : List PodcastJob} {id : String} {v : PodcastJob}
    (hv : v.jobId = id) :
    (jobs.map (fun x => if x.jobId = id then v else x)).map PodcastJob.jobId
      = jobs.map PodcastJob.jobId :=
  mapkey_map_update PodcastJob.jobId hv

theorem findByKey_append_of_ne {α : Type} (key : α → String) {l : List α}
    {k : String} {v : α} (hne : key v ≠ k) :
    findByKey key (l ++ [v]) k = findByKey key l k := by
  induction l with
  | nil => simp [findByKey, List.find?, hne]
  | cons a t ih =>
    by_cases hak : key a = k
    · simp [findByKey, List.find?_cons, hak]
    · simpa [findByKey, List.find?_cons, hak] using ih

/-- The record the tick writes: `startJob` followed by `updateProgress(5)`. -/
def tickedJob (qj : PodcastJob) (now : Nat) : PodcastJob :=
  { qj with
    status := .processing
    startedAt := some now
    progress := 5
    currentStep := some "Creating database record..." }

/-- The record one `advanceOk` step leaves behind, for awaits 0-5. -/
def advancedJob (j : PodcastJob) (pc : Nat) (d : StageData) (now : Nat) :
    PodcastJob :=
  match pc with
  | 0 => { j with progress := 10, currentStep := some "Generating podcast script..." }
  | 1 => { j with progress := 30, currentStep := some "Generating audio for each segment..." }
  | 2 => { j with progress := 65, currentStep := some "Combining audio segments..." }
  | 3 => { j with progress := 80, currentStep := some "Uploading to S3..." }
  | 4 => { j with progress := 92, currentStep := some "Updating database..." }
  | _ => { j with
      status := .completed
      progress := 100
      currentStep := some "Database updated"
      podcastId := some d.podcastId
      audioUrl := some d.audioUrl
      audioDuration := some d.audioDuration
      transcript := some d.transcript
      completedAt := some now }

/-- The record `failJob` leaves behind. -/
def failedJob (j : PodcastJob) (msg : String) (now : Nat) : PodcastJob :=
  { j with status := .failed, error := some msg, completedAt := some now }

theorem advanceOkStore_of_none {st : JobQueueState} {id : String} {pc : Nat}
    {d : StageData} {now : Nat} (h : findJob st.jobs id = none) :
    advanceOkStore st id pc d now = st := by
  match pc with
  | 0 => exact updateJob_of_none h
  | 1 | 2 | 3 | 4 =>
    show JobQueueState.updateProgress _ _ _ _ = st
    unfold JobQueueState.updateProgress
    rw [updateJob_of_none h, updateJob_of_none h]
  | 5 =>
    show JobQueueState.completeJob _ _ _ _ _ _ _ = st
    unfold JobQueueState.completeJob
    rw [show st.updateProgress id 95 (some "Database updated") = st from
          updateJob_of_none h, updateJob_of_none h]
  | (n + 6) => rfl

theorem advanceOkStore_jobs_of_some {st : JobQueueState} {id : String} {pc : Nat}
    {d : StageData} {n : Nat} {j : PodcastJob}
    (hnd : (st.jobs.map PodcastJob.jobId).Nodup) (h : findJob st.jobs id = some j)
    (hpc : pc ≤ 5) :
    (advanceOkStore st id pc d n).jobs
      = st.jobs.map (fun x => if x.jobId = id then advancedJob j pc d n else x) := by
  match pc with
  | 0 => exact updateJob_jobs_of_some hnd h
  | 1 | 2 | 3 | 4 => exact updateJob_updateJob hnd h rfl
  | 5 => exact updateJob_updateJob hnd h rfl
  | (n + 6) => omega

theorem failJob_jobs_of_some {st : JobQueueState} {id m : String} {n : Nat}
    {j : PodcastJob} (hnd : (st.jobs.map PodcastJob.jobId).Nodup)
    (h : findJob st.jobs id = some j) :
    (st.failJob id m n).jobs
      = st.jobs.map (fun x => if x.jobId = id then failedJob j m n else x) :=
  updateJob_jobs_of_some hnd h

theorem tick_store_jobs {st : JobQueueState} {qj : PodcastJob} {n : Nat}
    (hnd : (st.jobs.map PodcastJob.jobId).Nodup)
    (h : findJob st.jobs qj.jobId = some qj) :
    ((st.startJob qj.jobId n).updateProgress qj.jobId 5
        (some "Creating database record...")).jobs
      = st.jobs.map
          (fun x => if x.jobId = qj.jobId then tickedJob qj n else x) := by
  have := updateJob_updateJob (q := st) (k := qj.jobId) (w := qj)
    (f := fun j => { j with status := .processing, startedAt := some n, progress := 0 })
    (g := fun j => { j with progress := 5,
                            currentStep := some "Creating database record..." })
    hnd h rfl
  exact this

/-! ## The reachability invariant -/

/-- Per-record consistency between `status` and the other fields. -/
def StatusOk (j : PodcastJob) : Prop :=
  (j.progress = 100 ↔ j.status = .completed) ∧
  (j.status = .queued → j.progress = 0) ∧
  (j.status = .completed →
     j.podcastId.isSome ∧ j.audioUrl.isSome ∧ j.audioDuration.isSome ∧
     j.transcript.isSome ∧ j.completedAt.isSome) ∧
  (j.status = .failed → j.error.isSome ∧ j.completedAt.isSome) ∧
  (j.status ≠ .failed → j.error = none) ∧
  (j.status ≠ .completed →
     j.podcastId = none ∧ j.audioUrl = none ∧ j.audioDuration = none ∧
     j.transcript = none)

/-- The progress value a job holds while its `processJob` waits at await
number `pc`. -/
def expectedProgress : Nat → Nat
  | 0 => 5
  | 1 => 10
  | 2 => 30
  | 3 => 65
  | 4 => 80
  | 5 => 92
  | _ => 100

/-- Consistency between a pending continuation and the record it drives:
either its job has been swept from the store, or the record is `processing`
at the awaited checkpoint (awaits 0-5), or `completed` while the webhook
await (6) is pending. -/
def ContOk (st : JobQueueState) (c : Continuation) : Prop :=
  match findJob st.jobs c.jobId with
  | none => True
  | some j =>
      (c.pc ≤ 5 ∧ j.status = .processing ∧ j.progress = expectedProgress c.pc) ∨
      (c.pc = 6 ∧ j.status = .completed)

/-- The inductive invariant of every reachable system state. -/
structure Inv (s : SysState) : Prop where
  nodupIds : (s.store.jobs.map PodcastJob.jobId).Nodup
  procUnique : ∀ a ∈ s.store.jobs, ∀ b ∈ s.store.jobs,
      a.status = .processing → b.status = .processing → a = b
  idsUsed : ∀ j ∈ s.store.jobs, j.jobId ∈ s.used
  contIdsUsed : ∀ c ∈ s.conts, c.jobId ∈ s.used
  contIdsNodup : (s.conts.map Continuation.jobId).Nodup
  contsOk : ∀ c ∈ s.conts, ContOk s.store c
  statusOk : ∀ j ∈ s.store.jobs, StatusOk j

theorem inv_init : Inv initState := by
  constructor <;> simp [initState]

/-- A list with no duplicates whose `p`-elements are all equal has at most
one `p`-element. -/
theorem countP_le_one_of_unique {α : Type} {l : List α} {p : α → Bool}
    (hnd : l.Nodup) (h : ∀ a ∈ l, ∀ b ∈ l, p a → p b → a = b) :
    l.countP p ≤ 1 := by
  induction l with
  | nil => simp
  | cons a t ih =>
    rcases List.nodup_cons.mp hnd with ⟨hat, hndt⟩
    by_cases hpa : p a
    · have ht : t.countP p = 0 := by
        rw [List.countP_eq_zero]
        intro x hx hpx
        exact hat ((h a (List.mem_cons_self a t) x (List.mem_cons_of_mem a hx)
          hpa hpx) ▸ hx)
      simp [List.countP_cons, hpa, ht]
    · simp only [List.countP_cons, hpa, if_false, Bool.false_eq_true, add_zero]
      exact ih hndt fun x hx y hy hpx hpy =>
        h x (List.mem_cons_of_mem a hx) y (List.mem_cons_of_mem a hy) hpx hpy

/-- Transfer of `idsUsed` along a mutation that keeps the key list. -/
theorem idsUsed_of_mapkey_eq {jobs jobs' : List PodcastJob} {used : List String}
    (hmap : jobs'.map PodcastJob.jobId = jobs.map PodcastJob.jobId)
    (h : ∀ j ∈ jobs, j.jobId ∈ used) : ∀ j ∈ jobs', j.jobId ∈ used := by
  intro j hj
  have : j.jobId ∈ jobs.map PodcastJob.jobId :=
    hmap ▸ List.mem_map_of_mem PodcastJob.jobId hj
  rcases List.mem_map.mp this with ⟨y, hy, hyj⟩
  exact hyj ▸ h y hy

/-- Processing records after a keyed overwrite, assuming every processing
record before it was the overwritten one. -/
theorem procUnique_map_update {jobs : List PodcastJob} {id : String}
    {v j : PodcastJob} (hproc : ∀ y ∈ jobs, y.status = .processing → y = j)
    (hj : j.jobId = id) :
    ∀ a ∈ jobs.map (fun x => if x.jobId = id then v else x),
      ∀ b ∈ jobs.map (fun x => if x.jobId = id then v else x),
        a.status = .processing → b.status = .processing → a = b := by
  have key : ∀ a ∈ jobs.map (fun x => if x.jobId = id then v else x),
      a.status = .processing → a = v := by
    intro a ha hpa
    rcases List.mem_map.mp ha with ⟨y, hy, hya⟩
    by_cases hyid : y.jobId = id
    · rw [if_pos hyid] at hya
      exact hya.symm
    · rw [if_neg hyid] at hya
      exact absurd (congrArg PodcastJob.jobId (hproc y hy (hya ▸ hpa)))
        (by rw [hj] at *; exact fun hh => hyid hh)
  intro a ha b hb hpa hpb
  rw [key a ha hpa, key b hb hpb]

/-- The record `createJob` builds. -/
def createdJob (noteId noteContent userId : String) (duration : PodcastDuration)
    (now : Nat) (rand : String) : PodcastJob :=
  { jobId := mkJobId now rand
    status := .queued
    progress := 0
    currentStep := none
    noteId := noteId
    noteContent := noteContent
    userId := userId
    duration := duration
    podcastId := none
    audioUrl := none
    audioDuration := none
    transcript := none
    error := none
    createdAt := now
    startedAt := none
    completedAt := none }

theorem createJob_snd {q : JobQueueState} {nid nc uid : String}
    {d : PodcastDuration} {now : Nat} {rand : String} :
    (q.createJob nid nc uid d now rand).2 = createdJob nid nc uid d now rand := rfl

theorem createJob_jobs_of_none {q : JobQueueState} {a b c : String}
    {d : PodcastDuration} {n : Nat} {r : String}
    (h : findJob q.jobs (mkJobId n r) = none) :
    (q.createJob a b c d n r).1.jobs
      = q.jobs ++ [createdJob a b c d n r] :=
  setByKey_of_none PodcastJob.jobId h

theorem statusOk_createdJob {nid nc uid : String} {d : PodcastDuration}
    {now : Nat} {rand : String} : StatusOk (createdJob nid nc uid d now rand) := by
  unfold StatusOk createdJob
  refine ⟨by simp, by simp, by simp, by simp, by simp, by simp⟩

theorem inv_create (s : SysState) (nid nc uid : String) (d : PodcastDuration)
    (now : Nat) (rand : String) (hs : Inv s) :
    Inv (sysStep s (.create nid nc uid d now rand)) := by
  show Inv (if mkJobId now rand ∈ s.used then s else _)
  by_cases hmem : mkJobId now rand ∈ s.used
  · simpa [hmem] using hs
  · rw [if_neg hmem]
    have hnone : findJob s.store.jobs (mkJobId now rand) = none := by
      rw [findJob, findByKey_eq_none]
      intro x hx hxk
      exact hmem (hxk ▸ hs.idsUsed x hx)
    have happ := createJob_jobs_of_none (q := s.store) (a := nid) (b := nc)
      (c := uid) (d := d) (n := now) (r := rand) hnone
    have hnewid : (createdJob nid nc uid d now rand).jobId = mkJobId now rand := rfl
    constructor
    · show ((s.store.createJob nid nc uid d now rand).1.jobs.map PodcastJob.jobId).Nodup
      rw [happ, List.map_append]
      rw [List.nodup_append]
      refine ⟨hs.nodupIds, by simp, ?_⟩
      intro x hx hy
      simp only [List.map_cons, List.map_nil, List.mem_cons, List.not_mem_nil,
        or_false, hnewid] at hy
      subst hy
      rcases List.mem_map.mp hx with ⟨z, hz, hzx⟩
      exact hmem (hzx ▸ hs.idsUsed z hz)
    · show ∀ a ∈ (s.store.createJob nid nc uid d now rand).1.jobs, _
      rw [happ]
      intro a ha b hb hpa hpb
      rw [List.mem_append] at ha hb
      rcases ha with ha | ha
      · rcases hb with hb | hb
        · exact hs.procUnique a ha b hb hpa hpb
        · exfalso
          simp only [List.mem_cons, List.not_mem_nil, or_false] at hb
          rw [hb] at hpb
          exact absurd hpb (by simp [createdJob])
      · exfalso
        simp only [List.mem_cons, List.not_mem_nil, or_false] at ha
        rw [ha] at hpa
        exact absurd hpa (by simp [createdJob])
    · show ∀ j ∈ (s.store.createJob nid nc uid d now rand).1.jobs,
        j.jobId ∈ s.used ++ [mkJobId now rand]
      rw [happ]
      intro j hj
      rw [List.mem_append] at hj
      rcases hj with hj | hj
      · exact List.mem_append_left _ (hs.idsUsed j hj)
      · simp only [List.mem_cons, List.not_mem_nil, or_false] at hj
        rw [hj, hnewid]
        exact List.mem_append_right _ (List.mem_singleton.mpr rfl)
    · intro c hc
      exact List.mem_append_left _ (hs.contIdsUsed c hc)
    · exact hs.contIdsNodup
    · intro c hc
      have hcne : (createdJob nid nc uid d now rand).jobId ≠ c.jobId := by
        rw [hnewid]
        intro hh
        exact hmem (hh ▸ hs.contIdsUsed c hc)
      show ContOk (s.store.createJob nid nc uid d now rand).1 c
      unfold ContOk
      have : findJob (s.store.createJob nid nc uid d now rand).1.jobs c.jobId
          = findJob s.store.jobs c.jobId := by
        rw [findJob, happ]
        exact findByKey_append_of_ne PodcastJob.jobId hcne
      rw [this]
      exact hs.contsOk c hc
    · show ∀ j ∈ (s.store.createJob nid nc uid d now rand).1.jobs, StatusOk j
      rw [happ]
      intro j hj
      rw [List.mem_append] at hj
      rcases hj with hj | hj
      · exact hs.statusOk j hj
      · simp only [List.mem_cons, List.not_mem_nil, or_false] at hj
        rw [hj]
        exact statusOk_createdJob

theorem findJob_cleanup {q : JobQueueState} {now : Nat} {id : String}
    (hnd : (q.jobs.map PodcastJob.jobId).Nodup) :
    findJob (q.cleanup now).jobs id
      = match findJob q.jobs id with
        | some j =>
            if (j.createdAt : Int) < (now : Int) - (maxJobAgeMs : Int) then none
            else some j
        | none => none := by
  have hfil := findByKey_filter PodcastJob.jobId (l := q.jobs)
    (p := fun j => !decide ((j.createdAt : Int) < (now : Int) - (maxJobAgeMs : Int)))
    (k := id) hnd
  show findByKey PodcastJob.jobId
      (q.jobs.filter
        (fun j => !decide ((j.createdAt : Int) < (now : Int) - (maxJobAgeMs : Int))))
      id = _
  rw [hfil]
  cases hfind : findJob q.jobs id with
  | none =>
    rw [show findByKey PodcastJob.jobId q.jobs id = none from hfind]
  | some j =>
    rw [show findByKey PodcastJob.jobId q.jobs id = some j from hfind]
    by_cases hlt : (j.createdAt : Int) < (now : Int) - (maxJobAgeMs : Int)
    · simp [hlt]
    · simp [hlt]

theorem inv_sweep (s : SysState) (now : Nat) (hs : Inv s) :
    Inv (sysStep s (.sweep now)) := by
  show Inv { s with store := s.store.cleanup now }
  have hsub : (s.store.cleanup now).jobs.Sublist s.store.jobs :=
    List.filter_sublist s.store.jobs
  constructor
  · exact (hsub.map PodcastJob.jobId).nodup hs.nodupIds
  · intro a ha b hb hpa hpb
    exact hs.procUnique a (hsub.subset ha) b (hsub.subset hb) hpa hpb
  · intro j hj
    exact hs.idsUsed j (hsub.subset hj)
  · exact hs.contIdsUsed
  · exact hs.contIdsNodup
  · intro c hc
    have h := hs.contsOk c hc
    show ContOk (s.store.cleanup now) c
    unfold ContOk at h ⊢
    rw [findJob_cleanup hs.nodupIds]
    cases hfind : findJob s.store.jobs c.jobId with
    | none => trivial
    | some j =>
      rw [hfind] at h
      by_cases hlt : (j.createdAt : Int) < (now : Int) - (maxJobAgeMs : Int)
      · simp [hlt]
      · simpa [hlt] using h
  · intro j hj
    exact hs.statusOk j (hsub.subset hj)

theorem statusOk_tickedJob {qj : PodcastJob} {now : Nat} (h : StatusOk qj)
    (hq : qj.status = .queued) : StatusOk (tickedJob qj now) := by
  obtain ⟨_, _, _, _, h5, h6⟩ := h
  refine ⟨by simp [tickedJob], by simp [tickedJob], by simp [tickedJob],
    by simp [tickedJob], ?_, ?_⟩
  · intro _
    show qj.error = none
    exact h5 (by rw [hq]; simp)
  · intro _
    show qj.podcastId = none ∧ qj.audioUrl = none ∧ qj.audioDuration = none ∧
      qj.transcript = none
    exact h6 (by rw [hq]; simp)

theorem inv_tick (s : SysState) (now : Nat) (hs : Inv s) :
    Inv (sysStep s (.tick now)) := by
  show Inv (sysTick s now)
  unfold sysTick
  by_cases hguard : s.store.queuedCount > 0 ∧ s.store.processingCount = 0
  · rw [if_pos hguard]
    cases hq : findQueued s.store.jobs with
    | none => exact hs
    | some qj =>
      have hqmem : qj ∈ s.store.jobs := List.mem_of_find?_eq_some hq
      have hqstat : qj.status = .queued := by
        have := List.find?_some hq
        simpa using this
      have hqfind : findJob s.store.jobs qj.jobId = some qj :=
        findByKey_mem PodcastJob.jobId hs.nodupIds hqmem
      have hjobs := tick_store_jobs (n := now) hs.nodupIds hqfind
      have hvid : (tickedJob qj now).jobId = qj.jobId := rfl
      have hnoproc : ∀ y ∈ s.store.jobs, ¬ y.status = .processing := by
        intro y hy hyp
        have h0 := hguard.2
        rw [JobQueueState.processingCount, List.countP_eq_zero] at h0
        exact absurd (by simp [hyp] : decide (y.status = JobStatus.processing) = true)
          (h0 y hy)
      have hcne : ∀ c ∈ s.conts, c.jobId ≠ qj.jobId := by
        intro c hc heq
        have hok := hs.contsOk c hc
        unfold ContOk at hok
        rw [heq, hqfind] at hok
        rcases hok with ⟨_, hp, _⟩ | ⟨_, hp⟩ <;> rw [hqstat] at hp <;> cases hp
      refine Inv.mk ?_ ?_ ?_ ?_ ?_ ?_ ?_ <;> (try dsimp only)
      · rw [hjobs, jobIds_map_update hvid]
        exact hs.nodupIds
      · rw [hjobs]
        exact procUnique_map_update
          (fun y hy hyp => absurd hyp (hnoproc y hy)) rfl
      · rw [hjobs]
        exact idsUsed_of_mapkey_eq (jobIds_map_update hvid) hs.idsUsed
      · intro c hc
        rw [List.mem_append] at hc
        rcases hc with hc | hc
        · exact hs.contIdsUsed c hc
        · simp only [List.mem_cons, List.not_mem_nil, or_false] at hc
          rw [hc]
          exact hs.idsUsed qj hqmem
      · rw [List.map_append, List.nodup_append]
        refine ⟨hs.contIdsNodup, by simp, ?_⟩
        intro x hx hy
        simp only [List.map_cons, List.map_nil, List.mem_cons,
          List.not_mem_nil, or_false] at hy
        subst hy
        rcases List.mem_map.mp hx with ⟨c, hc, hcx⟩
        exact hcne c hc hcx
      · intro c hc
        rw [List.mem_append] at hc
        unfold ContOk
        rcases hc with hc | hc
        · rw [show findJob ((s.store.startJob qj.jobId now).updateProgress
              qj.jobId 5 (some "Creating database record...")).jobs c.jobId
              = findJob s.store.jobs c.jobId by
            rw [findJob, hjobs]
            exact findJob_map_other (hcne c hc) hvid]
          have := hs.contsOk c hc
          unfold ContOk at this
          exact this
        · simp only [List.mem_cons, List.not_mem_nil, or_false] at hc
          rw [hc]
          dsimp only
          rw [show findJob ((s.store.startJob qj.jobId now).updateProgress
              qj.jobId 5 (some "Creating database record...")).jobs qj.jobId
              = some (tickedJob qj now) by
            rw [findJob, hjobs]
            exact findJob_map_self hvid hqfind]
          exact Or.inl ⟨by omega, rfl, rfl⟩
      · rw [hjobs]
        intro j hj
        rcases List.mem_map.mp hj with ⟨y, hy, hyj⟩
        by_cases hyid : y.jobId = qj.jobId
        · rw [if_pos hyid] at hyj
          rw [← hyj]
          exact statusOk_tickedJob (hs.statusOk qj hqmem) hqstat
        · rw [if_neg hyid] at hyj
          rw [← hyj]
          exact hs.statusOk y hy
  · rw [if_neg hguard]
    exact hs

theorem advancedJob_jobId {j : PodcastJob} {pc : Nat} {d : StageData} {now : Nat} :
    (advancedJob j pc d now).jobId = j.jobId := by
  match pc with
  | 0 | 1 | 2 | 3 | 4 => rfl
  | n + 5 => rfl

theorem statusOk_progressWrite {j : PodcastJob} {p : Nat} {cs : Option String}
    (h : StatusOk j) (hproc : j.status = .processing) (hp : p ≠ 100) :
    StatusOk { j with progress := p, currentStep := cs } := by
  obtain ⟨h1, h2, h3, h4, h5, h6⟩ := h
  refine ⟨?_, ?_, ?_, ?_, ?_, ?_⟩
  · show p = 100 ↔ j.status = .completed
    rw [hproc]
    simp [hp]
  · show j.status = .queued → p = 0
    rw [hproc]
    simp
  · show j.status = .completed → _
    rw [hproc]
    simp
  · show j.status = .failed → _
    rw [hproc]
    simp
  · intro _
    exact h5 (by rw [hproc]; simp)
  · intro _
    exact h6 (by rw [hproc]; simp)

theorem statusOk_completeWrite {j : PodcastJob} {d : StageData} {now : Nat}
    (h : StatusOk j) (hproc : j.status = .processing) :
    StatusOk (advancedJob j 5 d now) := by
  have herr : j.error = none := h.2.2.2.2.1 (by rw [hproc]; simp)
  refine ⟨?_, ?_, ?_, ?_, ?_, ?_⟩
  · show (100 : Nat) = 100 ↔ JobStatus.completed = JobStatus.completed
    simp
  · show JobStatus.completed = JobStatus.queued → _
    simp
  · intro _
    exact ⟨rfl, rfl, rfl, rfl, rfl⟩
  · show JobStatus.completed = JobStatus.failed → _
    simp
  · intro _
    exact herr
  · show JobStatus.completed ≠ JobStatus.completed → _
    simp

theorem statusOk_advancedJob {j : PodcastJob} {d : StageData} {now pc : Nat}
    (h : StatusOk j) (hproc : j.status = .processing) (hpc : pc ≤ 5) :
    StatusOk (advancedJob j pc d now) := by
  interval_cases pc
  · exact statusOk_progressWrite h hproc (by omega)
  · exact statusOk_progressWrite h hproc (by omega)
  · exact statusOk_progressWrite h hproc (by omega)
  · exact statusOk_progressWrite h hproc (by omega)
  · exact statusOk_progressWrite h hproc (by omega)
  · exact statusOk_completeWrite h hproc

theorem advancedJob_contFacts {j : PodcastJob} {d : StageData} {now pc : Nat}
    (hproc : j.status = .processing) (hpc : pc ≤ 5) :
    (pc + 1 ≤ 5 ∧ (advancedJob j pc d now).status = .processing ∧
      (advancedJob j pc d now).progress = expectedProgress (pc + 1)) ∨
    (pc + 1 = 6 ∧ (advancedJob j pc d now).status = .completed) := by
  interval_cases pc
  · exact Or.inl ⟨by omega, hproc, rfl⟩
  · exact Or.inl ⟨by omega, hproc, rfl⟩
  · exact Or.inl ⟨by omega, hproc, rfl⟩
  · exact Or.inl ⟨by omega, hproc, rfl⟩
  · exact Or.inl ⟨by omega, hproc, rfl⟩
  · exact Or.inr ⟨rfl, rfl⟩

theorem inv_advanceOk (s : SysState) (id : String) (d : StageData) (now : Nat)
    (hs : Inv s) : Inv (sysStep s (.advanceOk id d now)) := by
  unfold sysStep
  dsimp only
  cases hcfind : findByKey Continuation.jobId s.conts id with
  | none => exact hs
  | some c =>
    dsimp only
    obtain ⟨hcmem, hcid⟩ := findByKey_some Continuation.jobId hcfind
    by_cases hp6 : c.pc = 6
    · rw [if_pos hp6]
      have hsub : (s.conts.eraseP (fun x => decide (x.jobId = id))).Sublist s.conts :=
        List.eraseP_sublist s.conts
      exact ⟨hs.nodupIds, hs.procUnique, hs.idsUsed,
        fun c' hc' => hs.contIdsUsed c' (hsub.subset hc'),
        (hsub.map Continuation.jobId).nodup hs.contIdsNodup,
        fun c' hc' => hs.contsOk c' (hsub.subset hc'),
        hs.statusOk⟩
    · rw [if_neg hp6]
      by_cases hp5 : c.pc ≤ 5
      · rw [if_pos hp5]
        have hcnew : (⟨id, c.pc + 1⟩ : Continuation).jobId = id := rfl
        have hconts : setByKey Continuation.jobId s.conts id ⟨id, c.pc + 1⟩
            = s.conts.map (fun x => if x.jobId = id then ⟨id, c.pc + 1⟩ else x) :=
          setByKey_of_some Continuation.jobId hs.contIdsNodup hcfind
        have hcontIds :
            ((s.conts.map (fun x => if x.jobId = id then ⟨id, c.pc + 1⟩ else x)).map
              Continuation.jobId) = s.conts.map Continuation.jobId :=
          mapkey_map_update Continuation.jobId hcnew
        cases hjfind : findJob s.store.jobs id with
        | none =>
          have hstore : advanceOkStore s.store id c.pc d now = s.store :=
            advanceOkStore_of_none hjfind
          refine Inv.mk ?_ ?_ ?_ ?_ ?_ ?_ ?_ <;> (try dsimp only) <;>
            (try rw [hstore]) <;> (try rw [hconts])
          · exact hs.nodupIds
          · exact hs.procUnique
          · exact hs.idsUsed
          · intro c' hc'
            rcases List.mem_map.mp hc' with ⟨y, hy, hyc⟩
            by_cases hyid : y.jobId = id
            · rw [if_pos hyid] at hyc
              rw [← hyc, hcnew, ← hcid]
              exact hs.contIdsUsed c hcmem
            · rw [if_neg hyid] at hyc
              rw [← hyc]
              exact hs.contIdsUsed y hy
          · rw [hcontIds]
            exact hs.contIdsNodup
          · intro c' hc'
            rcases List.mem_map.mp hc' with ⟨y, hy, hyc⟩
            by_cases hyid : y.jobId = id
            · rw [if_pos hyid] at hyc
              rw [← hyc]
              unfold ContOk
              rw [hcnew, hjfind]
              trivial
            · rw [if_neg hyid] at hyc
              rw [← hyc]
              exact hs.contsOk y hy
          · exact hs.statusOk
        | some j =>
          have hjmem : j ∈ s.store.jobs := (findByKey_some PodcastJob.jobId hjfind).1
          have hjid : j.jobId = id := (findByKey_some PodcastJob.jobId hjfind).2
          have hok := hs.contsOk c hcmem
          unfold ContOk at hok
          rw [hcid, hjfind] at hok
          have hproc : j.status = .processing := by
            rcases hok with ⟨_, hp, _⟩ | ⟨h6, _⟩
            · exact hp
            · exact absurd h6 hp6
          have hjobs := advanceOkStore_jobs_of_some (d := d) (n := now)
            hs.nodupIds hjfind hp5
          have hvid : (advancedJob j c.pc d now).jobId = id :=
            advancedJob_jobId.trans hjid
          refine Inv.mk ?_ ?_ ?_ ?_ ?_ ?_ ?_ <;> (try dsimp only) <;>
            (try rw [hjobs]) <;> (try rw [hconts])
          · rw [jobIds_map_update hvid]
            exact hs.nodupIds
          · exact procUnique_map_update
              (fun y hy hyp => hs.procUnique y hy j hjmem hyp hproc) hjid
          · exact idsUsed_of_mapkey_eq (jobIds_map_update hvid) hs.idsUsed
          · intro c' hc'
            rcases List.mem_map.mp hc' with ⟨y, hy, hyc⟩
            by_cases hyid : y.jobId = id
            · rw [if_pos hyid] at hyc
              rw [← hyc, hcnew, ← hcid]
              exact hs.contIdsUsed c hcmem
            · rw [if_neg hyid] at hyc
              rw [← hyc]
              exact hs.contIdsUsed y hy
          · rw [hcontIds]
            exact hs.contIdsNodup
          · intro c' hc'
            rcases List.mem_map.mp hc' with ⟨y, hy, hyc⟩
            by_cases hyid : y.jobId = id
            · rw [if_pos hyid] at hyc
              rw [← hyc]
              unfold ContOk
              rw [findJob, hjobs]
              rw [show findByKey PodcastJob.jobId (s.store.jobs.map
                  (fun x => if x.jobId = id then advancedJob j c.pc d now else x))
                  (⟨id, c.pc + 1⟩ : Continuation).jobId
                  = some (advancedJob j c.pc d now) from
                findJob_map_self hvid hjfind]
              exact advancedJob_contFacts hproc hp5
            · rw [if_neg hyid] at hyc
              rw [← hyc]
              unfold ContOk
              rw [findJob, hjobs]
              rw [show findByKey PodcastJob.jobId (s.store.jobs.map
                  (fun x => if x.jobId = id then advancedJob j c.pc d now else x))
                  y.jobId = findJob s.store.jobs y.jobId from
                findJob_map_other hyid hvid]
              have := hs.contsOk y hy
              unfold ContOk at this
              exact this
          · intro x hx
            rcases List.mem_map.mp hx with ⟨y, hy, hyx⟩
            by_cases hyid : y.jobId = id
            · rw [if_pos hyid] at hyx
              rw [← hyx]
              exact statusOk_advancedJob (hs.statusOk j hjmem) hproc hp5
            · rw [if_neg hyid] at hyx
              rw [← hyx]
              exact hs.statusOk y hy
      · rw [if_neg hp5]
        exact hs

theorem mem_eraseP_key_ne {α : Type} (key : α → String) {l : List α}
    (hnd : (l.map key).Nodup) {k : String} {x : α}
    (hx : x ∈ l.eraseP (fun y => decide (key y = k))) : x ∈ l ∧ key x ≠ k := by
  induction l with
  | nil => cases hx
  | cons a t ih =>
    rw [List.map_cons, List.nodup_cons] at hnd
    rw [List.eraseP_cons] at hx
    by_cases hak : key a = k
    · rw [show (decide (key a = k)) = true by simp [hak]] at hx
      simp only [cond_true] at hx
      refine ⟨List.mem_cons_of_mem a hx, ?_⟩
      intro hxk
      exact hnd.1 (hak ▸ hxk ▸ List.mem_map_of_mem key hx)
    · rw [show (decide (key a = k)) = false by simp [hak]] at hx
      simp only [cond_false, List.mem_cons] at hx
      rcases hx with rfl | hx
      · exact ⟨List.mem_cons_self x t, hak⟩
      · obtain ⟨hmem, hne⟩ := ih hnd.2 hx
        exact ⟨List.mem_cons_of_mem a hmem, hne⟩

theorem statusOk_failedJob {j : PodcastJob} {msg : String} {now : Nat}
    (h : StatusOk j) (hproc : j.status = .processing) :
    StatusOk (failedJob j msg now) := by
  obtain ⟨h1, h2, h3, h4, h5, h6⟩ := h
  have hne100 : j.progress ≠ 100 := by
    intro hcon
    rw [h1.mp hcon] at hproc
    cases hproc
  refine ⟨?_, ?_, ?_, ?_, ?_, ?_⟩
  · show j.progress = 100 ↔ JobStatus.failed = JobStatus.completed
    simp [hne100]
  · show JobStatus.failed = JobStatus.queued → _
    simp
  · show JobStatus.failed = JobStatus.completed → _
    simp
  · intro _
    exact ⟨rfl, rfl⟩
  · show JobStatus.failed ≠ JobStatus.failed → _
    simp
  · intro _
    exact h6 (by rw [hproc]; simp)

theorem inv_advanceFail (s : SysState) (id : String) (e : JsError) (now : Nat)
    (hs : Inv s) : Inv (sysStep s (.advanceFail id e now)) := by
  unfold sysStep
  dsimp only
  cases hcfind : findByKey Continuation.jobId s.conts id with
  | none => exact hs
  | some c =>
    dsimp only
    obtain ⟨hcmem, hcid⟩ := findByKey_some Continuation.jobId hcfind
    by_cases hp5 : c.pc ≤ 5
    · rw [if_pos hp5]
      have hsub : (s.conts.eraseP (fun x => decide (x.jobId = id))).Sublist s.conts :=
        List.eraseP_sublist s.conts
      cases hjfind : findJob s.store.jobs id with
      | none =>
        have hstore : s.store.failJob id (jsErrorMessage e) now = s.store :=
          updateJob_of_none hjfind
        refine Inv.mk ?_ ?_ ?_ ?_ ?_ ?_ ?_ <;> (try dsimp only) <;>
          (try rw [hstore])
        · exact hs.nodupIds
        · exact hs.procUnique
        · exact hs.idsUsed
        · exact fun c' hc' => hs.contIdsUsed c' (hsub.subset hc')
        · exact (hsub.map Continuation.jobId).nodup hs.contIdsNodup
        · exact fun c' hc' => hs.contsOk c' (hsub.subset hc')
        · exact hs.statusOk
      | some j =>
        have hjmem : j ∈ s.store.jobs := (findByKey_some PodcastJob.jobId hjfind).1
        have hjid : j.jobId = id := (findByKey_some PodcastJob.jobId hjfind).2
        have hok := hs.contsOk c hcmem
        unfold ContOk at hok
        rw [hcid, hjfind] at hok
        have hproc : j.status = .processing := by
          rcases hok with ⟨_, hp, _⟩ | ⟨h6', _⟩
          · exact hp
          · omega
        have hjobs := failJob_jobs_of_some (m := jsErrorMessage e) (n := now)
          hs.nodupIds hjfind
        have hvid : (failedJob j (jsErrorMessage e) now).jobId = id := hjid
        refine Inv.mk ?_ ?_ ?_ ?_ ?_ ?_ ?_ <;> (try dsimp only) <;>
          (try rw [hjobs])
        · rw [jobIds_map_update hvid]
          exact hs.nodupIds
        · exact procUnique_map_update
            (fun y hy hyp => hs.procUnique y hy j hjmem hyp hproc) hjid
        · exact idsUsed_of_mapkey_eq (jobIds_map_update hvid) hs.idsUsed
        · exact fun c' hc' => hs.contIdsUsed c' (hsub.subset hc')
        · exact (hsub.map Continuation.jobId).nodup hs.contIdsNodup
        · intro c' hc'
          obtain ⟨hc'mem, hc'ne⟩ :=
            mem_eraseP_key_ne Continuation.jobId hs.contIdsNodup hc'
          unfold ContOk
          rw [findJob, hjobs]
          rw [show findByKey PodcastJob.jobId (s.store.jobs.map
              (fun x => if x.jobId = id then failedJob j (jsErrorMessage e) now
                else x)) c'.jobId = findJob s.store.jobs c'.jobId from
            findJob_map_other hc'ne hvid]
          have := hs.contsOk c' hc'mem
          unfold ContOk at this
          exact this
        · intro x hx
          rcases List.mem_map.mp hx with ⟨y, hy, hyx⟩
          by_cases hyid : y.jobId = id
          · rw [if_pos hyid] at hyx
            rw [← hyx]
            exact statusOk_failedJob (hs.statusOk j hjmem) hproc
          · rw [if_neg hyid] at hyx
            rw [← hyx]
            exact hs.statusOk y hy
    · rw [if_neg hp5]
      exact hs

theorem inv_step (s : SysState) (a : SysAction) (hs : Inv s) :
    Inv (sysStep s a) := by
  cases a with
  | create nid nc uid d now rand => exact inv_create s nid nc uid d now rand hs
  | tick now => exact inv_tick s now hs
  | advanceOk id d now => exact inv_advanceOk s id d now hs
  | advanceFail id e now => exact inv_advanceFail s id e now hs
  | sweep now => exact inv_sweep s now hs

theorem inv_foldl (acts : List SysAction) :
    ∀ s, Inv s → Inv (acts.foldl sysStep s) := by
  induction acts with
  | nil => exact fun s hs => hs
  | cons a t ih => exact fun s hs => ih (sysStep s a) (inv_step s a hs)

theorem inv_run (acts : List SysAction) : Inv (run acts) :=
  inv_foldl acts initState inv_init

/-! ## Step-level consequences of the invariant -/

/-- After any single step, the record of a terminal job is either untouched
or (only by the retention sweep) removed. -/
theorem terminal_step_stable (s : SysState) (hs : Inv s) (a : SysAction)
    (id : String) (j : PodcastJob)
    (hfind : findJob s.store.jobs id = some j)
    (hterm : j.status = .completed ∨ j.status = .failed) :
    findJob (sysStep s a).store.jobs id = some j
      ∨ findJob (sysStep s a).store.jobs id = none := by
  have hjmem : j ∈ s.store.jobs := (findByKey_some PodcastJob.jobId hfind).1
  have hjid : j.jobId = id := (findByKey_some PodcastJob.jobId hfind).2
  have hnotproc : ¬ j.status = .processing := by
    rcases hterm with h | h <;> rw [h] <;> simp
  cases a with
  | create nid nc uid d now rand =>
    unfold sysStep
    dsimp only
    by_cases hmem : mkJobId now rand ∈ s.used
    · rw [if_pos hmem]
      exact Or.inl hfind
    · rw [if_neg hmem]
      dsimp only
      have hnone : findJob s.store.jobs (mkJobId now rand) = none := by
        rw [findJob, findByKey_eq_none]
        intro x hx hxk
        exact hmem (hxk ▸ hs.idsUsed x hx)
      rw [findJob, createJob_jobs_of_none hnone]
      rw [findByKey_append_of_ne PodcastJob.jobId
        (show (createdJob nid nc uid d now rand).jobId ≠ id by
          intro hh
          apply hmem
          rw [show mkJobId now rand = id from hh]
          exact hjid ▸ hs.idsUsed j hjmem)]
      exact Or.inl hfind
  | tick now =>
    show findJob (sysTick s now).store.jobs id = some j ∨ _
    unfold sysTick
    by_cases hguard : s.store.queuedCount > 0 ∧ s.store.processingCount = 0
    · rw [if_pos hguard]
      cases hq : findQueued s.store.jobs with
      | none => exact Or.inl hfind
      | some qj =>
        dsimp only
        have hqmem : qj ∈ s.store.jobs := List.mem_of_find?_eq_some hq
        have hqstat : qj.status = .queued := by
          have := List.find?_some hq
          simpa using this
        have hqfind : findJob s.store.jobs qj.jobId = some qj :=
          findByKey_mem PodcastJob.jobId hs.nodupIds hqmem
        have hne : id ≠ qj.jobId := by
          intro hh
          rw [hh, hqfind] at hfind
          have hqj : qj = j := Option.some.inj hfind
          rw [← hqj] at hterm
          rcases hterm with h | h <;> rw [hqstat] at h <;> cases h
        rw [findJob, tick_store_jobs (n := now) hs.nodupIds hqfind]
        rw [show findByKey PodcastJob.jobId (s.store.jobs.map
            (fun x => if x.jobId = qj.jobId then tickedJob qj now else x)) id
            = findJob s.store.jobs id from findJob_map_other hne rfl]
        exact Or.inl hfind
    · rw [if_neg hguard]
      exact Or.inl hfind
  | advanceOk aid d now =>
    unfold sysStep
    dsimp only
    cases hcfind : findByKey Continuation.jobId s.conts aid with
    | none => exact Or.inl hfind
    | some c =>
      dsimp only
      obtain ⟨hcmem, hcid⟩ := findByKey_some Continuation.jobId hcfind
      by_cases hp6 : c.pc = 6
      · rw [if_pos hp6]
        exact Or.inl hfind
      · rw [if_neg hp6]
        by_cases hp5 : c.pc ≤ 5
        · rw [if_pos hp5]
          dsimp only
          cases hjfind : findJob s.store.jobs aid with
          | none =>
            rw [advanceOkStore_of_none hjfind]
            exact Or.inl hfind
          | some jt =>
            have hok := hs.contsOk c hcmem
            unfold ContOk at hok
            rw [hcid, hjfind] at hok
            have hproc : jt.status = .processing := by
              rcases hok with ⟨_, hp, _⟩ | ⟨h6', _⟩
              · exact hp
              · exact absurd h6' hp6
            have hne : id ≠ aid := by
              intro hh
              rw [hh, hjfind] at hfind
              have hjt : jt = j := Option.some.inj hfind
              rw [hjt] at hproc
              exact hnotproc hproc
            rw [findJob, advanceOkStore_jobs_of_some (d := d) (n := now)
              hs.nodupIds hjfind hp5]
            rw [show findByKey PodcastJob.jobId (s.store.jobs.map
                (fun x => if x.jobId = aid then advancedJob jt c.pc d now else x))
                id = findJob s.store.jobs id from
              findJob_map_other hne
                (advancedJob_jobId.trans
                  (findByKey_some PodcastJob.jobId hjfind).2)]
            exact Or.inl hfind
        · rw [if_neg hp5]
          exact Or.inl hfind
  | advanceFail aid e now =>
    unfold sysStep
    dsimp only
    cases hcfind : findByKey Continuation.jobId s.conts aid with
    | none => exact Or.inl hfind
    | some c =>
      dsimp only
      obtain ⟨hcmem, hcid⟩ := findByKey_some Continuation.jobId hcfind
      by_cases hp5 : c.pc ≤ 5
      · rw [if_pos hp5]
        dsimp only
        cases hjfind : findJob s.store.jobs aid with
        | none =>
          rw [show s.store.failJob aid (jsErrorMessage e) now = s.store from
            updateJob_of_none hjfind]
          exact Or.inl hfind
        | some jt =>
          have hok := hs.contsOk c hcmem
          unfold ContOk at hok
          rw [hcid, hjfind] at hok
          have hproc : jt.status = .processing := by
            rcases hok with ⟨_, hp, _⟩ | ⟨h6', _⟩
            · exact hp
            · omega
          have hne : id ≠ aid := by
            intro hh
            rw [hh, hjfind] at hfind
            have hjt : jt = j := Option.some.inj hfind
            rw [hjt] at hproc
            exact hnotproc hproc
          rw [findJob, failJob_jobs_of_some (m := jsErrorMessage e) (n := now)
            hs.nodupIds hjfind]
          rw [show findByKey PodcastJob.jobId (s.store.jobs.map
              (fun x => if x.jobId = aid then failedJob jt (jsErrorMessage e) now
                else x)) id = findJob s.store.jobs id from
            findJob_map_other hne (findByKey_some PodcastJob.jobId hjfind).2]
          exact Or.inl hfind
      · rw [if_neg hp5]
        exact Or.inl hfind
  | sweep now =>
    have hcl : findJob (s.store.cleanup now).jobs id
        = if (j.createdAt : Int) < (now : Int) - (maxJobAgeMs : Int) then none
          else some j := by
      rw [findJob_cleanup hs.nodupIds, hfind]
    by_cases hlt : (j.createdAt : Int) < (now : Int) - (maxJobAgeMs : Int)
    · right
      show findJob (s.store.cleanup now).jobs id = none
      rw [hcl, if_pos hlt]
    · left
      show findJob (s.store.cleanup now).jobs id = some j
      rw [hcl, if_neg hlt]

theorem expectedProgress_le_advanced {j : PodcastJob} {d : StageData}
    {now pc : Nat} (hpc : pc ≤ 5) :
    expectedProgress pc ≤ (advancedJob j pc d now).progress := by
  interval_cases pc
  · show (5 : Nat) ≤ 10
    omega
  · show (10 : Nat) ≤ 30
    omega
  · show (30 : Nat) ≤ 65
    omega
  · show (65 : Nat) ≤ 80
    omega
  · show (80 : Nat) ≤ 92
    omega
  · show (92 : Nat) ≤ 100
    omega

/-- After any single step, the progress a poll observes for any job never
decreases. -/
theorem progress_step_mono (s : SysState) (hs : Inv s) (a : SysAction)
    (id : String) (j j' : PodcastJob)
    (hfind : findJob s.store.jobs id = some j)
    (hfind' : findJob (sysStep s a).store.jobs id = some j') :
    j.progress ≤ j'.progress := by
  have hjmem : j ∈ s.store.jobs := (findByKey_some PodcastJob.jobId hfind).1
  have hjid : j.jobId = id := (findByKey_some PodcastJob.jobId hfind).2
  cases a with
  | create nid nc uid d now rand =>
    unfold sysStep at hfind'
    dsimp only at hfind'
    by_cases hmem : mkJobId now rand ∈ s.used
    · rw [if_pos hmem, hfind] at hfind'
      rw [Option.some.inj hfind']
    · rw [if_neg hmem] at hfind'
      dsimp only at hfind'
      have hnone : findJob s.store.jobs (mkJobId now rand) = none := by
        rw [findJob, findByKey_eq_none]
        intro x hx hxk
        exact hmem (hxk ▸ hs.idsUsed x hx)
      rw [findJob, createJob_jobs_of_none hnone,
        findByKey_append_of_ne PodcastJob.jobId
          (show (createdJob nid nc uid d now rand).jobId ≠ id by
            intro hh
            apply hmem
            rw [show mkJobId now rand = id from hh]
            exact hjid ▸ hs.idsUsed j hjmem)] at hfind'
      rw [show findByKey PodcastJob.jobId s.store.jobs id = some j from hfind]
        at hfind'
      rw [Option.some.inj hfind']
  | tick now =>
    have hfind'' : findJob (sysTick s now).store.jobs id = some j' := hfind'
    unfold sysTick at hfind''
    by_cases hguard : s.store.queuedCount > 0 ∧ s.store.processingCount = 0
    · rw [if_pos hguard] at hfind''
      cases hq : findQueued s.store.jobs with
      | none =>
        rw [hq] at hfind''
        rw [hfind] at hfind''
        rw [Option.some.inj hfind'']
      | some qj =>
        rw [hq] at hfind''
        dsimp only at hfind''
        have hqmem : qj ∈ s.store.jobs := List.mem_of_find?_eq_some hq
        have hqstat : qj.status = .queued := by
          have := List.find?_some hq
          simpa using this
        have hqfind : findJob s.store.jobs qj.jobId = some qj :=
          findByKey_mem PodcastJob.jobId hs.nodupIds hqmem
        by_cases hne : id = qj.jobId
        · have hjq : j = qj := by
            rw [hne, hqfind] at hfind
            exact (Option.some.inj hfind).symm
          have hj0 : j.progress = 0 := by
            have := (hs.statusOk qj hqmem).2.1 hqstat
            rw [hjq]
            exact this
          rw [findJob, tick_store_jobs (n := now) hs.nodupIds hqfind, hne,
            show findByKey PodcastJob.jobId (s.store.jobs.map
              (fun x => if x.jobId = qj.jobId then tickedJob qj now else x))
              qj.jobId = some (tickedJob qj now) from
              findJob_map_self rfl hqfind] at hfind''
          rw [← Option.some.inj hfind'', hj0]
          show (0 : Nat) ≤ 5
          omega
        · rw [findJob, tick_store_jobs (n := now) hs.nodupIds hqfind,
            show findByKey PodcastJob.jobId (s.store.jobs.map
              (fun x => if x.jobId = qj.jobId then tickedJob qj now else x)) id
              = findJob s.store.jobs id from findJob_map_other hne rfl,
            hfind] at hfind''
          rw [Option.some.inj hfind'']
    · rw [if_neg hguard, hfind] at hfind''
      rw [Option.some.inj hfind'']
  | advanceOk aid d now =>
    unfold sysStep at hfind'
    dsimp only at hfind'
    cases hcfind : findByKey Continuation.jobId s.conts aid with
    | none =>
      rw [hcfind, hfind] at hfind'
      rw [Option.some.inj hfind']
    | some c =>
      rw [hcfind] at hfind'
      dsimp only at hfind'
      obtain ⟨hcmem, hcid⟩ := findByKey_some Continuation.jobId hcfind
      by_cases hp6 : c.pc = 6
      · rw [if_pos hp6, hfind] at hfind'
        rw [Option.some.inj hfind']
      · rw [if_neg hp6] at hfind'
        by_cases hp5 : c.pc ≤ 5
        · rw [if_pos hp5] at hfind'
          dsimp only at hfind'
          cases hjfind : findJob s.store.jobs aid with
          | none =>
            rw [advanceOkStore_of_none hjfind, hfind] at hfind'
            rw [Option.some.inj hfind']
          | some jt =>
            have hok := hs.contsOk c hcmem
            unfold ContOk at hok
            rw [hcid, hjfind] at hok
            have hproc : jt.status = .processing := by
              rcases hok with ⟨_, hp, _⟩ | ⟨h6', _⟩
              · exact hp
              · exact absurd h6' hp6
            have hprog : jt.progress = expectedProgress c.pc := by
              rcases hok with ⟨_, _, hp⟩ | ⟨h6', _⟩
              · exact hp
              · exact absurd h6' hp6
            have hvid : (advancedJob jt c.pc d now).jobId = aid :=
              advancedJob_jobId.trans (findByKey_some PodcastJob.jobId hjfind).2
            by_cases hne : id = aid
            · have hjjt : j = jt := by
                rw [hne, hjfind] at hfind
                exact (Option.some.inj hfind).symm
              rw [findJob, advanceOkStore_jobs_of_some (d := d) (n := now)
                  hs.nodupIds hjfind hp5, hne,
                show findByKey PodcastJob.jobId (s.store.jobs.map
                  (fun x => if x.jobId = aid then advancedJob jt c.pc d now
                    else x)) aid = some (advancedJob jt c.pc d now) from
                  findJob_map_self hvid hjfind] at hfind'
              rw [← Option.some.inj hfind', hjjt, hprog]
              exact expectedProgress_le_advanced hp5
            · rw [findJob, advanceOkStore_jobs_of_some (d := d) (n := now)
                  hs.nodupIds hjfind hp5,
                show findByKey PodcastJob.jobId (s.store.jobs.map
                  (fun x => if x.jobId = aid then advancedJob jt c.pc d now
                    else x)) id = findJob s.store.jobs id from
                  findJob_map_other hne hvid,
                hfind] at hfind'
              rw [Option.some.inj hfind']
        · rw [if_neg hp5, hfind] at hfind'
          rw [Option.some.inj hfind']
  | advanceFail aid e now =>
    unfold sysStep at hfind'
    dsimp only at hfind'
    cases hcfind : findByKey Continuation.jobId s.conts aid with
    | none =>
      rw [hcfind, hfind] at hfind'
      rw [Option.some.inj hfind']
    | some c =>
      rw [hcfind] at hfind'
      dsimp only at hfind'
      obtain ⟨hcmem, hcid⟩ := findByKey_some Continuation.jobId hcfind
      by_cases hp5 : c.pc ≤ 5
      · rw [if_pos hp5] at hfind'
        dsimp only at hfind'
        cases hjfind : findJob s.store.jobs aid with
        | none =>
          rw [show s.store.failJob aid (jsErrorMessage e) now = s.store from
            updateJob_of_none hjfind, hfind] at hfind'
          rw [Option.some.inj hfind']
        | some jt =>
          have hvid : (failedJob jt (jsErrorMessage e) now).jobId = aid :=
            (findByKey_some PodcastJob.jobId hjfind).2
          by_cases hne : id = aid
          · have hjjt : j = jt := by
              rw [hne, hjfind] at hfind
              exact (Option.some.inj hfind).symm
            rw [findJob, failJob_jobs_of_some (m := jsErrorMessage e)
                (n := now) hs.nodupIds hjfind, hne,
              show findByKey PodcastJob.jobId (s.store.jobs.map
                (fun x => if x.jobId = aid then failedJob jt (jsErrorMessage e)
                  now else x)) aid
                = some (failedJob jt (jsErrorMessage e) now) from
                findJob_map_self hvid hjfind] at hfind'
            rw [← Option.some.inj hfind', hjjt]
            exact Nat.le_refl _
          · rw [findJob, failJob_jobs_of_some (m := jsErrorMessage e)
                (n := now) hs.nodupIds hjfind,
              show findByKey PodcastJob.jobId (s.store.jobs.map
                (fun x => if x.jobId = aid then failedJob jt (jsErrorMessage e)
                  now else x)) id = findJob s.store.jobs id from
                findJob_map_other hne hvid,
              hfind] at hfind'
            rw [Option.some.inj hfind']
      · rw [if_neg hp5, hfind] at hfind'
        rw [Option.some.inj hfind']
  | sweep now =>
    have hcl : findJob (s.store.cleanup now).jobs id
        = if (j.createdAt : Int) < (now : Int) - (maxJobAgeMs : Int) then none
          else some j := by
      rw [findJob_cleanup hs.nodupIds, hfind]
    have hfind'' : findJob (s.store.cleanup now).jobs id = some j' := hfind'
    rw [hcl] at hfind''
    by_cases hlt : (j.createdAt : Int) < (now : Int) - (maxJobAgeMs : Int)
    · rw [if_pos hlt] at hfind''
      cases hfind''
    · rw [if_neg hlt] at hfind''
      rw [Option.some.inj hfind'']

/-- A stage-failure step never changes any record's progress:
`failJob` writes only `status`, `error` and `completedAt`. -/
theorem progress_failStep_eq (s : SysState) (hs : Inv s) (aid : String)
    (e : JsError) (now : Nat) (id : String) (j j' : PodcastJob)
    (hfind : findJob s.store.jobs id = some j)
    (hfind' : findJob (sysStep s (.advanceFail aid e now)).store.jobs id
      = some j') :
    j'.progress = j.progress := by
  unfold sysStep at hfind'
  dsimp only at hfind'
  cases hcfind : findByKey Continuation.jobId s.conts aid with
  | none =>
    rw [hcfind, hfind] at hfind'
    rw [Option.some.inj hfind']
  | some c =>
    rw [hcfind] at hfind'
    dsimp only at hfind'
    by_cases hp5 : c.pc ≤ 5
    · rw [if_pos hp5] at hfind'
      dsimp only at hfind'
      cases hjfind : findJob s.store.jobs aid with
      | none =>
        rw [show s.store.failJob aid (jsErrorMessage e) now = s.store from
          updateJob_of_none hjfind, hfind] at hfind'
        rw [Option.some.inj hfind']
      | some jt =>
        have hvid : (failedJob jt (jsErrorMessage e) now).jobId = aid :=
          (findByKey_some PodcastJob.jobId hjfind).2
        by_cases hne : id = aid
        · have hjjt : j = jt := by
            rw [hne, hjfind] at hfind
            exact (Option.some.inj hfind).symm
          rw [findJob, failJob_jobs_of_some (m := jsErrorMessage e)
              (n := now) hs.nodupIds hjfind, hne,
            show findByKey PodcastJob.jobId (s.store.jobs.map
              (fun x => if x.jobId = aid then failedJob jt (jsErrorMessage e)
                now else x)) aid
              = some (failedJob jt (jsErrorMessage e) now) from
              findJob_map_self hvid hjfind] at hfind'
          rw [← Option.some.inj hfind', hjjt]
          rfl
        · rw [findJob, failJob_jobs_of_some (m := jsErrorMessage e)
              (n := now) hs.nodupIds hjfind,
            show findByKey PodcastJob.jobId (s.store.jobs.map
              (fun x => if x.jobId = aid then failedJob jt (jsErrorMessage e)
                now else x)) id = findJob s.store.jobs id from
              findJob_map_other hne hvid,
            hfind] at hfind'
          rw [Option.some.inj hfind']
    · rw [if_neg hp5, hfind] at hfind'
      rw [Option.some.inj hfind']

/-- `Map.set` always stores the value it is given. -/
theorem mem_setByKey_self {α : Type} (key : α → String) (l : List α)
    (k : String) (v : α) : v ∈ setByKey key l k v := by
  induction l with
  | nil => exact List.mem_singleton.mpr rfl
  | cons a t ih =>
    unfold setByKey
    by_cases hak : key a = k
    · rw [if_pos hak]
      exact List.mem_cons_self v _
    · rw [if_neg hak]
      exact List.mem_cons_of_mem a ih

/-! ## Sample executions used by the witnesses and counterexamples -/

/-- Create a job, start it, fail its first pending await. -/
def sampleFailTrace : List SysAction :=
  [.create "n1" "note" "u1" .short 0 "abc", .tick 1,
   .advanceFail "job_0_abc" (.thrown "synthesis failed") 2]

/-- Create a job, start it, resolve all six awaits and the webhook. -/
def sampleCompleteTrace : List SysAction :=
  [.create "n1" "note" "u1" .short 0 "abc", .tick 1,
   .advanceOk "job_0_abc" {} 2,
   .advanceOk "job_0_abc" { segCount := 3 } 3,
   .advanceOk "job_0_abc" { segCount := 3 } 4,
   .advanceOk "job_0_abc" {} 5,
   .advanceOk "job_0_abc" {} 6,
   .advanceOk "job_0_abc"
     { podcastId := "p1", audioUrl := "http://a", audioDuration := 42 } 7]

/-- The record after `sampleFailTrace`. -/
def sampleFailedRecord : PodcastJob :=
  { jobId := "job_0_abc"
    status := .failed
    progress := 5
    currentStep := some "Creating database record..."
    noteId := "n1"
    noteContent := "note"
    userId := "u1"
    duration := .short
    podcastId := none
    audioUrl := none
    audioDuration := none
    transcript := none
    error := some "synthesis failed"
    createdAt := 0
    startedAt := some 1
    completedAt := some 2 }

/-- The record after create + tick. -/
def sampleProcessingRecord : PodcastJob :=
  { jobId := "job_0_abc"
    status := .processing
    progress := 5
    currentStep := some "Creating database record..."
    noteId := "n1"
    noteContent := "note"
    userId := "u1"
    duration := .short
    podcastId := none
    audioUrl := none
    audioDuration := none
    transcript := none
    error := none
    createdAt := 0
    startedAt := some 1
    completedAt := none }

/-- The record after create + tick + first await resolution. -/
def sampleScriptRecord : PodcastJob :=
  { sampleProcessingRecord with
    progress := 10
    currentStep := some "Generating podcast script..." }

/-- The record when a stage rejects with `new Error("")`. -/
def sampleEmptyFailRecord : PodcastJob :=
  { sampleFailedRecord with error := some "" }

/-- A state whose only pending continuation is the webhook await. -/
def sampleWebhookPendingState : SysState :=
  { store := { jobs := [], processingQueue := [] }
    conts := [⟨"job_0_abc", 6⟩]
    notifications := []
    used := ["job_0_abc"] }

/-! ## The claims -/

/-- C1: evaluating the embedding on a run whose first pending stage rejects:
the job does end `failed` with `failureReason` and `completedAt` set, but
the list of payloads handed to `sendWebhook` stays empty — the `catch`
block of `processJob` never invokes the Notifier, even though the repo's
own `WebhookPayload` type declares a `podcast.failed` event and the
integration guide documents its delivery.  A completed run, by contrast,
hands `sendWebhook` exactly one completed-event payload. -/
theorem C1_failure_sends_no_notification :
    findJob (run sampleFailTrace).store.jobs "job_0_abc"
        = some sampleFailedRecord
      ∧ (run sampleFailTrace).notifications = []
      ∧ (run sampleCompleteTrace).notifications
        = [(WebhookEvent.completedEvent, "job_0_abc")] :=
  ⟨rfl, rfl, rfl⟩

/-- C2: in every state reachable by any interleaving of creations, ticks,
stage resolutions/failures and sweeps, at most one stored job has status
`processing`: the tick's synchronous prefix starts a job only behind the
`stats.queued > 0 && stats.processing === 0` guard and marks it
`processing` before yielding. -/
theorem C2_processing_at_most_one (acts : List SysAction) :
    (run acts).store.processingCount ≤ 1 := by
  have hs := inv_run acts
  exact countP_le_one_of_unique (List.Nodup.of_map _ hs.nodupIds)
    fun a ha b hb hpa hpb =>
      hs.procUnique a ha b hb (of_decide_eq_true hpa) (of_decide_eq_true hpb)

/-- C3: (i) a created record has progress 0; (ii) across any single step of
the system the progress a poll observes for any job never decreases;
(iii) in every reachable state a job's progress is 100 exactly when its
status is `completed`; (iv) a stage-failure step leaves every job's
progress unchanged (a failed job keeps its last intermediate value).
Store writes between two awaits happen atomically on the JS event loop, so
(ii) quantifies over every poll-observable state. -/
theorem C3_progress_lifecycle :
    (∀ (q : JobQueueState) (nid nc uid : String) (d : PodcastDuration)
        (now : Nat) (rand : String),
        (q.createJob nid nc uid d now rand).2.progress = 0) ∧
    (∀ (acts : List SysAction) (a : SysAction) (id : String)
        (j j' : PodcastJob),
        findJob (run acts).store.jobs id = some j →
        findJob (sysStep (run acts) a).store.jobs id = some j' →
        j.progress ≤ j'.progress) ∧
    (∀ (acts : List SysAction), ∀ j ∈ (run acts).store.jobs,
        j.progress = 100 ↔ j.status = .completed) ∧
    (∀ (acts : List SysAction) (aid : String) (e : JsError) (now : Nat)
        (id : String) (j j' : PodcastJob),
        findJob (run acts).store.jobs id = some j →
        findJob (sysStep (run acts) (.advanceFail aid e now)).store.jobs id
          = some j' →
        j'.progress = j.progress) := by
  refine ⟨fun _ _ _ _ _ _ _ => rfl, ?_, ?_, ?_⟩
  · intro acts a id j j' h h'
    exact progress_step_mono (run acts) (inv_run acts) a id j j' h h'
  · intro acts j hj
    exact ((inv_run acts).statusOk j hj).1
  · intro acts aid e now id j j' h h'
    exact progress_failStep_eq (run acts) (inv_run acts) aid e now id j j' h h'

theorem C3_witness :
    sampleProcessingRecord.progress ≤ sampleScriptRecord.progress ∧
    (sampleFailedRecord.progress = 100 ↔ sampleFailedRecord.status = .completed) ∧
    sampleFailedRecord.progress = sampleProcessingRecord.progress :=
  ⟨C3_progress_lifecycle.2.1 [.create "n1" "note" "u1" .short 0 "abc", .tick 1]
      (.advanceOk "job_0_abc" {} 2) "job_0_abc"
      sampleProcessingRecord sampleScriptRecord rfl rfl,
   C3_progress_lifecycle.2.2.1 sampleFailTrace sampleFailedRecord (by decide),
   C3_progress_lifecycle.2.2.2 [.create "n1" "note" "u1" .short 0 "abc", .tick 1]
      "job_0_abc" (.thrown "synthesis failed") 2 "job_0_abc"
      sampleProcessingRecord sampleFailedRecord rfl rfl⟩

/-- C4 (amended): `createJob` always succeeds and returns a record with
status `queued`, progress 0, `createdAt = now` and id
`job_{now}_{rand}`, which is stored; whenever the generated id string
differs from every id already in the store, the id is distinct from all of
them and every prior record is retained.  The store itself performs no
uniqueness check, so a repeated `(Date.now(), Math.random())` pair yields a
duplicate id that silently overwrites the earlier record (see the
counterexample). -/
theorem C4_create_queued_fresh (q : JobQueueState) (nid nc uid : String)
    (d : PodcastDuration) (now : Nat) (rand : String) :
    (q.createJob nid nc uid d now rand).2.status = .queued ∧
    (q.createJob nid nc uid d now rand).2.progress = 0 ∧
    (q.createJob nid nc uid d now rand).2.createdAt = now ∧
    (q.createJob nid nc uid d now rand).2.jobId = mkJobId now rand ∧
    (q.createJob nid nc uid d now rand).2 ∈
      (q.createJob nid nc uid d now rand).1.jobs ∧
    (mkJobId now rand ∉ q.jobs.map PodcastJob.jobId →
      (∀ k ∈ q.jobs, k.jobId ≠ (q.createJob nid nc uid d now rand).2.jobId) ∧
      (∀ k ∈ q.jobs, k ∈ (q.createJob nid nc uid d now rand).1.jobs)) := by
  refine ⟨rfl, rfl, rfl, rfl, ?_, ?_⟩
  · exact mem_setByKey_self PodcastJob.jobId q.jobs (mkJobId now rand) _
  · intro hfresh
    have hnone : findJob q.jobs (mkJobId now rand) = none := by
      rw [findJob, findByKey_eq_none]
      intro x hx hxk
      exact hfresh (hxk ▸ List.mem_map_of_mem PodcastJob.jobId hx)
    constructor
    · intro k hk hkid
      apply hfresh
      rw [show (q.createJob nid nc uid d now rand).2.jobId = mkJobId now rand
        from rfl] at hkid
      exact hkid ▸ List.mem_map_of_mem PodcastJob.jobId hk
    · intro k hk
      rw [show (q.createJob nid nc uid d now rand).1.jobs
          = q.jobs ++ [createdJob nid nc uid d now rand] from
        createJob_jobs_of_none hnone]
      exact List.mem_append_left _ hk

theorem C4_witness :
    ((((JobQueueState.mk [] []).createJob "n1" "note" "u1" .short 0
        "abc").1.createJob "n2" "note2" "u2" .long 1 "xyz").2.status
      = JobStatus.queued) ∧
    (∀ k ∈ (((JobQueueState.mk [] []).createJob "n1" "note" "u1" .short 0
        "abc").1).jobs,
      k.jobId ≠ (((JobQueueState.mk [] []).createJob "n1" "note" "u1" .short 0
        "abc").1.createJob "n2" "note2" "u2" .long 1 "xyz").2.jobId) := by
  have h := C4_create_queued_fresh
    (((JobQueueState.mk [] []).createJob "n1" "note" "u1" .short 0 "abc").1)
    "n2" "note2" "u2" .long 1 "xyz"
  exact ⟨h.1, (h.2.2.2.2.2 (by decide)).1⟩

/-- C4 counterexample: two creations whose `(Date.now(), random suffix)`
pairs coincide produce the very same id, and the second `Map.set` silently
overwrites the first record — afterwards the store holds a single record.
The claim's unconditional "id distinct from every id previously issued" is
therefore false. -/
theorem C4_counterexample :
    ((((JobQueueState.mk [] []).createJob "n1" "c1" "u1" .short 0
        "abc").1.createJob "n2" "c2" "u2" .long 0 "abc").2.jobId
      = (((JobQueueState.mk [] []).createJob "n1" "c1" "u1" .short 0
        "abc").2.jobId)) ∧
    ((((JobQueueState.mk [] []).createJob "n1" "c1" "u1" .short 0
        "abc").1.createJob "n2" "c2" "u2" .long 0 "abc").1.jobs.length = 1) :=
  ⟨rfl, rfl⟩

/-- C5: once a job's record is terminal (`completed` or `failed`), no
further step of the system — creation, tick, stage resolution or failure —
changes any of its fields: the record after the step is either identical,
or (retention sweep only) removed whole.  Executions are those of the
fresh-id model encoded in `sysStep`. -/
theorem C5_terminal_write_once (acts : List SysAction) (a : SysAction)
    (id : String) (j : PodcastJob)
    (hfind : findJob (run acts).store.jobs id = some j)
    (hterm : j.status = .completed ∨ j.status = .failed) :
    findJob (sysStep (run acts) a).store.jobs id = some j
      ∨ findJob (sysStep (run acts) a).store.jobs id = none :=
  terminal_step_stable (run acts) (inv_run acts) a id j hfind hterm

theorem C5_witness :
    findJob (sysStep (run sampleFailTrace) (.tick 3)).store.jobs "job_0_abc"
        = some sampleFailedRecord
      ∨ findJob (sysStep (run sampleFailTrace) (.tick 3)).store.jobs
          "job_0_abc" = none :=
  C5_terminal_write_once sampleFailTrace (.tick 3) "job_0_abc"
    sampleFailedRecord rfl (Or.inr rfl)

/-- C6: `cleanup` keeps a record exactly when `now - createdAt` does not
exceed the 24 h retention window, irrespective of its status, and the kept
records are the very same records in the same order (a sublist of the
original store). -/
theorem C6_cleanup_iff (q : JobQueueState) (now : Nat) (j : PodcastJob) :
    (j ∈ (q.cleanup now).jobs ↔
      j ∈ q.jobs ∧
        ¬((now : Int) - (j.createdAt : Int) > (maxJobAgeMs : Int))) ∧
    (q.cleanup now).jobs.Sublist q.jobs := by
  constructor
  · show j ∈ q.jobs.filter
        (fun x => !decide ((x.createdAt : Int) < (now : Int) - (maxJobAgeMs : Int)))
      ↔ _
    rw [List.mem_filter]
    constructor
    · rintro ⟨hm, hf⟩
      refine ⟨hm, ?_⟩
      intro hgt
      have : ¬((j.createdAt : Int) < (now : Int) - (maxJobAgeMs : Int)) := by
        simpa using hf
      omega
    · rintro ⟨hm, hle⟩
      refine ⟨hm, ?_⟩
      have : ¬((j.createdAt : Int) < (now : Int) - (maxJobAgeMs : Int)) := by
        omega
      simpa using this
  · exact List.filter_sublist q.jobs

theorem C6_witness :
    (sampleFailedRecord ∈
        ((JobQueueState.mk [sampleFailedRecord] []).cleanup 1000).jobs ↔
      sampleFailedRecord ∈ [sampleFailedRecord] ∧
        ¬(((1000 : Nat) : Int) - ((sampleFailedRecord.createdAt : Nat) : Int)
          > (maxJobAgeMs : Int))) :=
  (C6_cleanup_iff (JobQueueState.mk [sampleFailedRecord] []) 1000
    sampleFailedRecord).1

/-- C7: `sendWebhook` never returns an error to its caller (the single
`axios.post` is wrapped in a catch-all), attempts at most one delivery for
every configuration and outcome, and the resolution of a pending webhook
await performs no store write — every job's fields are identical before and
after it. -/
theorem C7_webhook_never_raises :
    (∀ (url : Option String) (p : WebhookPayload) (o : HttpOutcome),
      ∃ r : WebhookResult, sendWebhook url p o = Except.ok r ∧
        r.attempts ≤ 1) ∧
    (∀ (s : SysState) (id : String) (c : Continuation) (d : StageData)
        (now : Nat),
      findByKey Continuation.jobId s.conts id = some c → c.pc = 6 →
      (sysStep s (.advanceOk id d now)).store = s.store) := by
  constructor
  · intro url p o
    cases url with
    | none => exact ⟨⟨0, false⟩, rfl, by decide⟩
    | some u =>
      cases o with
      | httpResponse st =>
        exact ⟨⟨1, decide (200 ≤ st ∧ st < 300)⟩, rfl, Nat.le_refl 1⟩
      | transportError m => exact ⟨⟨1, false⟩, rfl, by decide⟩
  · intro s id c d now hc h6
    unfold sysStep
    dsimp only
    rw [hc]
    dsimp only
    rw [if_pos h6]

theorem C7_witness :
    (∃ r : WebhookResult,
      sendWebhook (some "http://main-app/webhook")
          { event := .failedEvent, jobId := "job_0_abc", noteId := "n1",
            userId := "u1", duration := .short }
          (.transportError "ECONNREFUSED") = Except.ok r ∧ r.attempts ≤ 1) ∧
    (sysStep sampleWebhookPendingState
        (.advanceOk "job_0_abc" {} 9)).store = sampleWebhookPendingState.store :=
  ⟨C7_webhook_never_raises.1 (some "http://main-app/webhook")
      { event := .failedEvent, jobId := "job_0_abc", noteId := "n1",
        userId := "u1", duration := .short }
      (.transportError "ECONNREFUSED"),
   C7_webhook_never_raises.2 sampleWebhookPendingState "job_0_abc"
      ⟨"job_0_abc", 6⟩ {} 9 rfl rfl⟩

/-- C8: `getUserJobs` returns exactly the store's records whose `userId`
matches (as a multiset: a permutation of the filter), sorted newest first
by `createdAt`; it is a pure function of the store and mutates nothing. -/
theorem C8_getUserJobs_spec (q : JobQueueState) (uid : String) :
    (q.getUserJobs uid).Perm
        (q.jobs.filter (fun j => decide (j.userId = uid))) ∧
    (q.getUserJobs uid).Sorted newestFirst ∧
    (∀ j, j ∈ q.getUserJobs uid ↔ j ∈ q.jobs ∧ j.userId = uid) := by
  have hp : (q.getUserJobs uid).Perm
      (q.jobs.filter (fun j => decide (j.userId = uid))) :=
    List.perm_insertionSort newestFirst _
  refine ⟨hp, List.sorted_insertionSort newestFirst _, ?_⟩
  intro j
  rw [hp.mem_iff, List.mem_filter]
  simp

theorem C8_witness :
    sampleFailedRecord ∈
        (JobQueueState.mk [sampleFailedRecord] []).getUserJobs "u1" ↔
      sampleFailedRecord ∈ [sampleFailedRecord] ∧
        sampleFailedRecord.userId = "u1" :=
  (C8_getUserJobs_spec (JobQueueState.mk [sampleFailedRecord] []) "u1").2.2
    sampleFailedRecord

/-- C9 (amended): in every reachable state, a `failed` record has its
`failureReason` (`error`) populated — with the collaborator's error message,
possibly the empty string, or `'Unknown error'` for non-`Error` throws — and
none of the result fields set; a `completed` record has all result fields
set and no `failureReason`; a non-terminal record has neither.  Exactly one
of result / failureReason is populated, and only in a terminal state. -/
theorem C9_failed_fields (acts : List SysAction) (j : PodcastJob)
    (hj : j ∈ (run acts).store.jobs) :
    (j.status = .failed →
      j.error.isSome ∧ j.podcastId = none ∧ j.audioUrl = none ∧
      j.audioDuration = none ∧ j.transcript = none) ∧
    (j.status = .completed →
      j.podcastId.isSome ∧ j.audioUrl.isSome ∧ j.audioDuration.isSome ∧
      j.transcript.isSome ∧ j.error = none) ∧
    (j.status = .queued ∨ j.status = .processing →
      j.error = none ∧ j.podcastId = none ∧ j.audioUrl = none ∧
      j.audioDuration = none ∧ j.transcript = none) := by
  obtain ⟨h1, h2, h3, h4, h5, h6⟩ := (inv_run acts).statusOk j hj
  refine ⟨?_, ?_, ?_⟩
  · intro hf
    have hres := h6 (by rw [hf]; simp)
    exact ⟨(h4 hf).1, hres.1, hres.2.1, hres.2.2.1, hres.2.2.2⟩
  · intro hc
    have hr := h3 hc
    exact ⟨hr.1, hr.2.1, hr.2.2.1, hr.2.2.2.1, h5 (by rw [hc]; simp)⟩
  · intro hqp
    have hne1 : j.status ≠ .failed := by
      rcases hqp with h | h <;> rw [h] <;> simp
    have hne2 : j.status ≠ .completed := by
      rcases hqp with h | h <;> rw [h] <;> simp
    have hres := h6 hne2
    exact ⟨h5 hne1, hres.1, hres.2.1, hres.2.2.1, hres.2.2.2⟩

theorem C9_witness :
    sampleFailedRecord.error.isSome ∧ sampleFailedRecord.podcastId = none ∧
    sampleFailedRecord.audioUrl = none ∧
    sampleFailedRecord.audioDuration = none ∧
    sampleFailedRecord.transcript = none :=
  (C9_failed_fields sampleFailTrace sampleFailedRecord (by decide)).1 rfl

/-- C9 counterexample: a stage may reject with `new Error("")`; the run then
ends with `failureReason = some ""` — populated but empty, refuting the
claim's "non-empty failureReason string". -/
theorem C9_counterexample :
    findJob (run [.create "n1" "note" "u1" .short 0 "abc", .tick 1,
        .advanceFail "job_0_abc" (.thrown "") 2]).store.jobs "job_0_abc"
      = some sampleEmptyFailRecord ∧
    sampleEmptyFailRecord.status = JobStatus.failed ∧
    sampleEmptyFailRecord.error = some "" ∧ String.length "" = 0 :=
  ⟨rfl, rfl, rfl, rfl⟩

/-- C10: with no `WEBHOOK_URL` configured, `sendWebhook` returns normally
having attempted no delivery at all, for every payload (completion or
failure) and every would-be transport outcome; job processing is unaffected
since the store is never touched by `sendWebhook` (it has no access to it —
see also the webhook-await step of `sysStep`, which writes nothing). -/
theorem C10_no_url_no_attempt (p : WebhookPayload) (o : HttpOutcome) :
    sendWebhook none p o = Except.ok { attempts := 0, delivered := false } :=
  rfl

end Podnex
